import Mathlib

/-!
Shallow embedding of the core turn-taking / streaming pipeline of the
my-neuro voice agent (src/ai_live2d), together with proofs settling the
frozen claims about it.

Embedded components:
* `voice/tts_client.py`  : `TTSClient._segment_text` (punctuation segmentation)
* `voice/asr_client.py`  : VAD frame handling (`handle_speech`, `handle_silence`,
  `silence_timeout_handler`), `finish_recording`, `_remove_silence`,
  `process_recording`, `_unlock_asr`
* `core/event_bus.py`    : `EventBus.subscribe` / `publish` / `shutdown`
* `ai/llm_client.py`     : `add_message` / `trim_messages`, `_process_stream`,
  and the first-balanced-JSON-object extraction in `_handle_streaming_response`
* `core/app_manager.py`  : `_check_and_update_asr_status`

Python strings are modelled as `List Char`; audio sample values (float32)
as `ℚ` (the claims only compare samples against thresholds, and float
comparison is exact); times as `Nat` milliseconds.
-/

namespace MyNeuro

/-! ### Python string helpers

`str.strip()` / truthiness of `str.strip()` are modelled over the ASCII
whitespace characters Python strips. -/

/-- Characters removed by Python `str.strip()` (ASCII fragment). -/
def isPySpace (c : Char) : Bool :=
  c = ' ' || c = '\t' || c = '\n' || c = '\x0d' || c = '\x0b' || c = '\x0c'

/-- Truthiness of `s.strip()` in Python: the string has a non-whitespace char. -/
def hasNonWs (s : List Char) : Bool :=
  s.any (fun c => !(isPySpace c))

/-- Drop trailing characters satisfying `p`. -/
def dropTrailingWhile (p : Char → Bool) (l : List Char) : List Char :=
  (l.reverse.dropWhile p).reverse

/-- Python `str.strip()`. -/
def pyStrip (l : List Char) : List Char :=
  dropTrailingWhile isPySpace (l.dropWhile isPySpace)

/-! ### `TTSClient._segment_text` (voice/tts_client.py)

```python
self.punctuations = ('.', '。', '!', '！', '?', '？', ',', '，', ';', '；', ':', '：', '~')

def _segment_text(self, text):
    segments = []
    current_segment = ""
    ready_to_cut, cut = False, False
    for char in text:
        current_segment += char
        if char not in self.punctuations and current_segment.strip(): cut = True
        if cut and ready_to_cut:
            segments.append(current_segment[:-1])
            current_segment = char
        ready_to_cut = True if char in self.punctuations else False
        if cut: cut = False
    if current_segment.strip():
        segments.append(current_segment)
    return segments
```

Note `cut` is always reset at the end of an iteration, so at each step
`cut = (char not punctuation) and (current_segment + char).strip()`.
`current_segment[:-1]` right after `current_segment += char` is the value
of `current_segment` before the append. -/

/-- The `TTSClient.punctuations` tuple. -/
def punctuations : List Char :=
  ['.', '。', '!', '！', '?', '？', ',', '，', ';', '；', ':', '：', '~']

/-- Loop state of `_segment_text`: emitted segments (in order), the pending
`current_segment`, and `ready_to_cut` (previous char was a punctuation). -/
structure SegState where
  segments : List (List Char)
  current : List Char
  readyToCut : Bool
deriving Repr, DecidableEq

/-- `char in self.punctuations`. -/
def isPunct (c : Char) : Bool := decide (c ∈ punctuations)

/-- One iteration of the `for char in text` loop of `_segment_text`.
The branch condition is `cut and ready_to_cut` with
`cut = (char not in punctuations) and (current_segment + char).strip()`. -/
def segStep (st : SegState) (c : Char) : SegState :=
  if (!(isPunct c) && hasNonWs (st.current ++ [c])) && st.readyToCut then
    { segments := st.segments ++ [st.current]
      current := [c]
      readyToCut := isPunct c }
  else
    { segments := st.segments
      current := st.current ++ [c]
      readyToCut := isPunct c }

/-- Initial loop state of `_segment_text`. -/
def segInit : SegState := ⟨[], [], false⟩

/-- `TTSClient._segment_text`: run the loop, then flush the remainder if its
`strip()` is truthy. -/
def segmentText (t : List Char) : List (List Char) :=
  let st := t.foldl segStep segInit
  st.segments ++ (if hasNonWs st.current then [st.current] else [])

/-- Concatenation of a list of segments. -/
def joinSegs (l : List (List Char)) : List Char := l.flatten

/-! #### Segmentation lemmas -/

lemma segStep_join (st : SegState) (c : Char) :
    joinSegs (segStep st c).segments ++ (segStep st c).current
      = joinSegs st.segments ++ st.current ++ [c] := by
  cases h : (!(isPunct c) && hasNonWs (st.current ++ [c])) && st.readyToCut <;>
    simp [segStep, joinSegs, h]

lemma segFold_join (t : List Char) (st : SegState) :
    joinSegs (t.foldl segStep st).segments ++ (t.foldl segStep st).current
      = joinSegs st.segments ++ st.current ++ t := by
  induction t generalizing st with
  | nil => simp
  | cons c cs ih =>
      rw [List.foldl_cons, ih (segStep st c), segStep_join]
      simp

lemma segStep_punct_segments (st : SegState) (c : Char)
    (h : c ∈ punctuations) : (segStep st c).segments = st.segments := by
  have hc : isPunct c = true := by simpa [isPunct] using h
  simp [segStep, hc]

lemma segStep_cut_readyToCut (st : SegState) (c : Char)
    (h : (segStep st c).segments ≠ st.segments) :
    st.readyToCut = true ∧ c ∉ punctuations := by
  cases hc : (!(isPunct c) && hasNonWs (st.current ++ [c])) && st.readyToCut with
  | false => simp [segStep, hc] at h
  | true =>
      simp only [Bool.and_eq_true, Bool.not_eq_true'] at hc
      refine ⟨hc.2, ?_⟩
      intro hmem
      have : isPunct c = true := by simpa [isPunct] using hmem
      rw [this] at hc
      simp at hc

lemma segFold_readyToCut (t : List Char) (st : SegState) (c : Char) :
    ((t ++ [c]).foldl segStep st).readyToCut = isPunct c := by
  rw [List.foldl_append]
  simp only [List.foldl_cons, List.foldl_nil]
  cases h : (!(isPunct c) && hasNonWs ((t.foldl segStep st).current ++ [c])) &&
      (t.foldl segStep st).readyToCut <;> simp [segStep, h]

lemma hasNonWs_false_all (s : List Char) (h : hasNonWs s = false) :
    ∀ c ∈ s, isPySpace c = true := by
  intro c hc
  unfold hasNonWs at h
  rw [List.any_eq_false] at h
  have := h c hc
  simpa using this

lemma segFold_readyToCut_concat (t : List Char)
    (h : (t.foldl segStep segInit).readyToCut = true) :
    ∃ t₀ p, t = t₀ ++ [p] ∧ p ∈ punctuations := by
  rcases List.eq_nil_or_concat t with rfl | ⟨t₀, p, rfl⟩
  · simp [segInit] at h
  · rw [List.concat_eq_append] at h ⊢
    refine ⟨t₀, p, rfl, ?_⟩
    rw [segFold_readyToCut] at h
    simpa [isPunct] using h

/-! #### `AppManager._on_llm_streaming` (core/app_manager.py), non-final branch

```python
text = data.get("text", "").replace('\\n', '')
if not is_final:
    self.llm_streaming = True
    if self.tts_client:
        self.tts_client.current_full_text += text
        if any(True for word in text if word in self.tts_client.punctuations):
            segments = self.tts_client._segment_text(self.tts_client.current_full_text)
            if len(segments) > 1:
                for i in range(len(segments)-1):
                    await self.tts_client.add_streaming_text(segments[i])
                self.tts_client.current_full_text = segments[-1]
            else:
                await self.tts_client.add_streaming_text(segments[0])
                self.tts_client.current_full_text = ''
```

The state is `current_full_text`; each delta returns the new buffer and the
segments dispatched to TTS. In the punctuation branch `segments` is never
empty (the buffer then contains a punctuation character, which is not
whitespace), so the total `headD`/`getLastD` defaults are never reached. -/

/-- Python `text.replace('\\n', '')`. -/
def stripNewlines (t : List Char) : List Char :=
  t.filter (fun c => !(decide (c = '\n')))

/-- One `llm_streaming` delta through `_on_llm_streaming` (non-final branch):
returns `(new current_full_text, segments dispatched to TTS in order)`. -/
def onLlmStreamingDelta (cur rawText : List Char) : List Char × List (List Char) :=
  if (stripNewlines rawText).any isPunct then
    if 1 < (segmentText (cur ++ stripNewlines rawText)).length then
      ((segmentText (cur ++ stripNewlines rawText)).getLastD [],
       (segmentText (cur ++ stripNewlines rawText)).dropLast)
    else
      ([], [(segmentText (cur ++ stripNewlines rawText)).headD []])
  else (cur ++ stripNewlines rawText, [])

/-- A whole mid-stream run (no final flush): fold the deltas from an empty
buffer, collecting every segment dispatched to TTS. -/
def runLlmStreaming (deltas : List (List Char)) : List Char × List (List Char) :=
  deltas.foldl
    (fun acc t =>
      ((onLlmStreamingDelta acc.1 t).1, acc.2 ++ (onLlmStreamingDelta acc.1 t).2))
    ([], [])

/-- The text received so far by the streaming handler (newlines stripped,
as the handler does). -/
def receivedText (deltas : List (List Char)) : List Char :=
  joinSegs (deltas.map stripNewlines)

lemma segStep_current_ne (st : SegState) (c : Char) : (segStep st c).current ≠ [] := by
  unfold segStep
  split <;> simp

lemma segFold_segments_ne (t : List Char) (st : SegState)
    (h1 : st.readyToCut = true → st.current ≠ [])
    (h2 : ∀ s ∈ st.segments, s ≠ []) :
    ((t.foldl segStep st).readyToCut = true → (t.foldl segStep st).current ≠ [])
    ∧ ∀ s ∈ (t.foldl segStep st).segments, s ≠ [] := by
  induction t generalizing st with
  | nil => exact ⟨h1, h2⟩
  | cons c cs ih =>
      rw [List.foldl_cons]
      refine ih (segStep st c) (fun _ => segStep_current_ne st c) ?_
      intro s hs
      cases hcut : (!(isPunct c) && hasNonWs (st.current ++ [c])) && st.readyToCut with
      | false =>
          have hstep : segStep st c = { st with
              current := st.current ++ [c]
              readyToCut := isPunct c } := by
            unfold segStep
            rw [if_neg (by simp [hcut])]
          rw [hstep] at hs
          exact h2 s hs
      | true =>
          have hrtc : st.readyToCut = true := by
            have hc2 := hcut
            simp only [Bool.and_eq_true] at hc2
            exact hc2.2
          have hstep : segStep st c
              = { segments := st.segments ++ [st.current]
                  current := [c]
                  readyToCut := isPunct c } := by
            unfold segStep
            rw [if_pos (by simp [hcut])]
          rw [hstep] at hs
          simp only [List.mem_append, List.mem_singleton] at hs
          rcases hs with hs | hs
          · exact h2 s hs
          · subst hs
            exact h1 hrtc

lemma segmentText_mem_ne (t : List Char) : ∀ s ∈ segmentText t, s ≠ [] := by
  intro s hs
  unfold segmentText at hs
  have h := segFold_segments_ne t segInit
    (by intro hc; simp [segInit] at hc)
    (by intro x hx; simp [segInit] at hx)
  rw [List.mem_append] at hs
  rcases hs with hs | hs
  · exact h.2 s hs
  · by_cases hws : hasNonWs (t.foldl segStep segInit).current = true
    · rw [if_pos hws, List.mem_singleton] at hs
      subst hs
      intro hcon
      rw [hcon] at hws
      simp [hasNonWs] at hws
    · rw [if_neg hws] at hs
      cases hs

lemma joinSegs_dropLast_getLastD (l : List (List Char)) (h : l ≠ []) :
    joinSegs l.dropLast ++ l.getLastD [] = joinSegs l := by
  have hg : l.getLastD [] = l.getLast h := by
    rw [List.getLastD_eq_getLast?, List.getLast?_eq_getLast l h]
    rfl
  rw [hg]
  conv_rhs => rw [← List.dropLast_append_getLast h]
  unfold joinSegs
  rw [List.flatten_append]
  simp

/-- C4 counterexample: at the claim's scope — the streaming pipeline, i.e.
`_segment_text` as driven by `_on_llm_streaming` — the claim is false. The
handler's `len(segments) == 1` branch dispatches the lone segment to TTS
immediately and clears the buffer, so a cut can be committed right after a
trailing punctuation that is the last character received: for the deltas
`"a,"` then `","`, the dispatched segments `["a,", ","]` re-concatenate to the
entire received text `"a,,"`, whose trailing `','` is a punctuation — even
though no final flush was involved (lookahead segmentation of `"a,,"` would
give the single segment `"a,,"`). -/
theorem C4_cex :
    ¬ (∀ (deltas : List (List Char)) (p : Char), p ∈ punctuations →
        (receivedText deltas).getLast? = some p →
        joinSegs (runLlmStreaming deltas).2 ≠ receivedText deltas) := by
  intro h
  exact h ["a,".toList, ",".toList] ',' (by decide) (by decide) (by decide)

/-- C4 amended: inside `_segment_text` the lookahead holds as claimed — (1)
processing a punctuation character never emits a cut, so a trailing
punctuation produces no cut there; (2) whenever processing one further
character `c` after the prefix `t` does emit a cut, the prefix ends with a
punctuation character (which `c` immediately follows) and `c` is not itself a
punctuation; (3) at final flush the remaining buffered text becomes its own
terminal segment. In the streaming handler, however, only the multi-segment
branch preserves the lookahead: (4) when the re-segmented buffer has more
than one segment, the handler holds back a non-empty final segment, so every
segment it dispatches is followed by at least one further received character;
the single-segment branch instead dispatches the lone segment immediately,
so a dispatched cut can land on a trailing punctuation that is the last
character received (see the counterexample). -/
theorem C4_segment_cut_lookahead :
    (∀ (t : List Char) (c : Char), c ∈ punctuations →
      ((t ++ [c]).foldl segStep segInit).segments = (t.foldl segStep segInit).segments)
    ∧ (∀ (t : List Char) (c : Char),
      ((t ++ [c]).foldl segStep segInit).segments ≠ (t.foldl segStep segInit).segments →
      ((∃ t₀ p, t = t₀ ++ [p] ∧ p ∈ punctuations) ∧ c ∉ punctuations))
    ∧ (∀ t : List Char, hasNonWs (t.foldl segStep segInit).current = true →
      segmentText t = (t.foldl segStep segInit).segments
        ++ [(t.foldl segStep segInit).current])
    ∧ (∀ cur rawText : List Char,
      (stripNewlines rawText).any isPunct = true →
      1 < (segmentText (cur ++ stripNewlines rawText)).length →
      (onLlmStreamingDelta cur rawText).1 ≠ []
      ∧ joinSegs (onLlmStreamingDelta cur rawText).2
          ++ (onLlmStreamingDelta cur rawText).1
        = joinSegs (segmentText (cur ++ stripNewlines rawText))) := by
  refine ⟨?_, ?_, ?_, ?_⟩
  · intro t c hc
    rw [List.foldl_append, List.foldl_cons, List.foldl_nil,
      segStep_punct_segments _ _ hc]
  · intro t c h
    rw [List.foldl_append, List.foldl_cons, List.foldl_nil] at h
    have h2 := segStep_cut_readyToCut _ _ h
    exact ⟨segFold_readyToCut_concat t h2.1, h2.2⟩
  · intro t h
    simp [segmentText, h]
  · intro cur rawText hpunct hlen
    unfold onLlmStreamingDelta
    rw [if_pos hpunct, if_pos hlen]
    have hne : segmentText (cur ++ stripNewlines rawText) ≠ [] := by
      intro hcon
      rw [hcon] at hlen
      simp at hlen
    constructor
    · have hg : (segmentText (cur ++ stripNewlines rawText)).getLastD []
          = (segmentText (cur ++ stripNewlines rawText)).getLast hne := by
        rw [List.getLastD_eq_getLast?,
          List.getLast?_eq_getLast (segmentText (cur ++ stripNewlines rawText)) hne]
        rfl
      rw [hg]
      exact segmentText_mem_ne (cur ++ stripNewlines rawText) _
        (List.getLast_mem hne)
    · exact joinSegs_dropLast_getLastD _ hne

/-- C4 witness: concrete instances. Processing the trailing punctuation of
`"ab."` emits no cut; processing `'b'` after `"a."` does emit a cut, and indeed
`"a."` ends in a punctuation and `'b'` is not one; `"a.b"` flushes its
remainder; and the delta `"a,b"` on an empty buffer takes the multi-segment
branch, holding back the non-empty segment `"b"`. -/
theorem C4_witness :
    ('.' ∈ punctuations
      ∧ (("ab".toList ++ ['.']).foldl segStep segInit).segments
          = ("ab".toList.foldl segStep segInit).segments)
    ∧ (((("a.".toList ++ ['b']).foldl segStep segInit).segments
          ≠ ("a.".toList.foldl segStep segInit).segments)
      ∧ (∃ t₀ p, "a.".toList = t₀ ++ [p] ∧ p ∈ punctuations) ∧ 'b' ∉ punctuations)
    ∧ (hasNonWs ("a.b".toList.foldl segStep segInit).current = true
      ∧ segmentText "a.b".toList = ("a.b".toList.foldl segStep segInit).segments
          ++ [("a.b".toList.foldl segStep segInit).current])
    ∧ ((stripNewlines "a,b".toList).any isPunct = true
      ∧ 1 < (segmentText ([] ++ stripNewlines "a,b".toList)).length
      ∧ (onLlmStreamingDelta [] "a,b".toList).1 ≠ []
      ∧ joinSegs (onLlmStreamingDelta [] "a,b".toList).2
          ++ (onLlmStreamingDelta [] "a,b".toList).1
        = joinSegs (segmentText ([] ++ stripNewlines "a,b".toList))) :=
  ⟨⟨by decide, C4_segment_cut_lookahead.1 "ab".toList '.' (by decide)⟩,
   ⟨by decide, C4_segment_cut_lookahead.2.1 "a.".toList 'b' (by decide)⟩,
   ⟨by decide, C4_segment_cut_lookahead.2.2.1 "a.b".toList (by decide)⟩,
   ⟨by decide, by decide,
    (C4_segment_cut_lookahead.2.2.2 [] "a,b".toList (by decide) (by decide)).1,
    (C4_segment_cut_lookahead.2.2.2 [] "a,b".toList (by decide) (by decide)).2⟩⟩

/-- C5 counterexample: re-concatenating the segments does NOT always reproduce
the input. On the single-space input, `_segment_text` returns no segments at
all (the final flush drops a remainder whose `strip()` is empty), so the claim
"for every input text, concatenating the segments plus any final flush
reproduces the original input exactly" is false. -/
theorem C5_cex : ¬ (∀ t : List Char, joinSegs (segmentText t) = t) := by
  intro h
  have := h [' ']
  simp [segmentText, segInit, segStep, joinSegs, hasNonWs, isPySpace, isPunct,
    punctuations] at this

/-- C5 amended: concatenating the segments of `_segment_text`, in order,
reproduces the original input up to a dropped trailing remainder consisting
entirely of whitespace (the final flush appends the remainder only when its
`strip()` is non-empty). In particular the concatenation is exactly the input
whenever the leftover buffer contains a non-whitespace character or is empty. -/
theorem C5_join_up_to_trailing_ws :
    ∀ t : List Char, ∃ r : List Char,
      (∀ c ∈ r, isPySpace c = true) ∧ joinSegs (segmentText t) ++ r = t := by
  intro t
  have hjoin := segFold_join t segInit
  simp [segInit, joinSegs] at hjoin
  cases h : hasNonWs (t.foldl segStep segInit).current with
  | true =>
      refine ⟨[], by simp, ?_⟩
      simp [segmentText, h, joinSegs]
      simpa [joinSegs] using hjoin
  | false =>
      refine ⟨(t.foldl segStep segInit).current, hasNonWs_false_all _ h, ?_⟩
      simp [segmentText, h, joinSegs]
      simpa [joinSegs] using hjoin

/-- C5 witness: the amended statement instantiated at the concrete input
`"a. "`, whose trailing space is the dropped whitespace remainder. -/
theorem C5_witness :
    ∃ r : List Char, (∀ c ∈ r, isPySpace c = true)
      ∧ joinSegs (segmentText "a. ".toList) ++ r = "a. ".toList :=
  C5_join_up_to_trailing_ws "a. ".toList

/-! ### `EventBus` (core/event_bus.py)

```python
async def subscribe(self, event_type, callback):
    if self.is_shutting_down:
        logger.warning(...)
        return                      # returns None, no error value
    async with self.lock:
        self.subscribers[event_type].append(callback)

async def publish(self, event_type, data=None):
    if self.is_shutting_down:
        logger.warning(...)
        return                      # returns None, no error value
    ...
    for callback in callbacks:
        task = asyncio.create_task(...)   # one task per subscriber

async def shutdown(self):
    if self.is_shutting_down: return
    self.is_shutting_down = True
    ... cancel tasks ...
    self.subscribers.clear()
```

Handlers are modelled by opaque ids; the second component of `subscribe`'s
result is the Python return value (always `None`, i.e. `none`: the function
never returns an error object). `publish` additionally reports the list of
handler ids for which a task is spawned. -/

/-- The typed error the spec postulates for operations on a closed bus. -/
inductive BusError where
  | closed
deriving Repr, DecidableEq

/-- Event bus state: subscription registry in insertion order, and the
shutdown flag. -/
structure EventBus where
  subscribers : List (String × Nat)
  isShuttingDown : Bool
deriving Repr, DecidableEq

/-- A freshly constructed bus. -/
def EventBus.init : EventBus := ⟨[], false⟩

/-- `EventBus.subscribe`: on a shutting-down bus it logs a warning and plainly
returns (`None` in Python, `none` here) without registering the handler. -/
def EventBus.subscribe (bus : EventBus) (eventType : String) (handler : Nat) :
    EventBus × Option BusError :=
  if bus.isShuttingDown then (bus, none)
  else ({ bus with subscribers := bus.subscribers ++ [(eventType, handler)] }, none)

/-- `EventBus.publish`: on a shutting-down bus it logs a warning and plainly
returns (`None`, no tasks); otherwise it spawns one task per current subscriber
of the event type, in subscription order. Returns (spawned tasks, return
value). -/
def EventBus.publish (bus : EventBus) (eventType : String) :
    List Nat × Option BusError :=
  if bus.isShuttingDown then ([], none)
  else ((bus.subscribers.filter (fun p => decide (p.1 = eventType))).map Prod.snd, none)

/-- `EventBus.shutdown`: mark closed and clear all subscriptions (idempotent). -/
def EventBus.shutdown (bus : EventBus) : EventBus :=
  if bus.isShuttingDown then bus else ⟨[], true⟩

/-- C3 counterexample: the claim "Subscribe after Shutdown fails with a typed
Closed error, and publish after shutdown is rejected with a typed error rather
than silently ignored" is false: on the concrete shut-down bus both calls
return `none` (Python `None`) — they are silently ignored apart from a log
line. -/
theorem C3_cex :
    ¬ (∀ (bus : EventBus) (et : String) (h : Nat), bus.isShuttingDown = true →
        (bus.subscribe et h).2 = some BusError.closed
        ∧ (bus.publish et).2 = some BusError.closed) := by
  intro hclaim
  have := hclaim (EventBus.shutdown EventBus.init) "user_speaking" 0 (by decide)
  rw [show (EventBus.shutdown EventBus.init) = ⟨[], true⟩ from rfl] at this
  simp [EventBus.subscribe, EventBus.publish] at this

/-- C3 amended: after shutdown, `subscribe` is rejected silently — the handler
is not registered and the call returns no error value (Python returns `None`,
merely logging a warning) — and `publish` is likewise silently dropped: no
handler task is spawned and no error value is returned. -/
theorem C3_closed_bus_silent :
    ∀ (bus : EventBus) (et : String) (h : Nat), bus.isShuttingDown = true →
      (bus.subscribe et h).1 = bus ∧ (bus.subscribe et h).2 = none
      ∧ (bus.publish et).1 = [] ∧ (bus.publish et).2 = none := by
  intro bus et h hshut
  simp [EventBus.subscribe, EventBus.publish, hshut]

/-- C3 witness: the amended behaviour at a concrete shut-down bus (whose
shutdown flag is indeed set). -/
theorem C3_witness :
    (EventBus.shutdown EventBus.init).isShuttingDown = true
    ∧ ((EventBus.shutdown EventBus.init).subscribe "tts_end" 7).1
        = EventBus.shutdown EventBus.init
    ∧ ((EventBus.shutdown EventBus.init).subscribe "tts_end" 7).2 = none
    ∧ ((EventBus.shutdown EventBus.init).publish "tts_end").1 = []
    ∧ ((EventBus.shutdown EventBus.init).publish "tts_end").2 = none :=
  ⟨by decide,
   C3_closed_bus_silent (EventBus.shutdown EventBus.init) "tts_end" 7 (by decide)⟩

/-! ### `LLMClient` conversation history (ai/llm_client.py)

```python
def add_message(self, role, content, image_data=None):
    if not image_data:
        self.messages.append({"role": role, "content": content})
    else:
        self.messages.append({"role": role, "content": [...]})
    if self.enable_limit:
        self.trim_messages()

def trim_messages(self):
    if not self.enable_limit or len(self.messages) <= self.max_messages:
        return
    system_msgs = [msg for msg in self.messages if msg["role"] == "system"]
    non_system_msgs = [msg for msg in self.messages if msg["role"] != "system"]
    if len(non_system_msgs) > self.max_messages:
        non_system_msgs = non_system_msgs[-self.max_messages:]
    self.messages = system_msgs + non_system_msgs
```

Both branches of `add_message` append exactly one entry whose role is `role`;
only the content payload differs, so content is modelled as an opaque string.
Note the Python slice `lst[-k:]` with `k = 0` is `lst[0:]`, the whole list:
`pySliceLast` reproduces this. -/

/-- Message roles. -/
inductive Role where
  | system
  | user
  | assistant
deriving Repr, DecidableEq

/-- One history entry. -/
structure Msg where
  role : Role
  content : String
deriving Repr, DecidableEq

/-- `LLMClient` history state: `self.messages`, `self.enable_limit`,
`self.max_messages`. -/
structure LLMState where
  messages : List Msg
  enableLimit : Bool
  maxMessages : Nat
deriving Repr, DecidableEq

/-- Python `lst[-k:]` (the last `k` elements — except that `lst[-0:]` is the
whole list). -/
def pySliceLast (l : List Msg) (k : Nat) : List Msg :=
  if k = 0 then l else l.drop (l.length - k)

/-- The system messages of a history, in order. -/
def sysMsgs (l : List Msg) : List Msg :=
  l.filter (fun m => decide (m.role = Role.system))

/-- The non-system messages of a history, in order. -/
def nonSysMsgs (l : List Msg) : List Msg :=
  l.filter (fun m => decide (¬ m.role = Role.system))

/-- `LLMClient.trim_messages`. -/
def trimMessages (st : LLMState) : LLMState :=
  if st.enableLimit = false ∨ st.messages.length ≤ st.maxMessages then st
  else { st with messages := sysMsgs st.messages ++
      (if st.maxMessages < (nonSysMsgs st.messages).length
       then pySliceLast (nonSysMsgs st.messages) st.maxMessages
       else nonSysMsgs st.messages) }

/-- `LLMClient.add_message`. -/
def addMessage (st : LLMState) (role : Role) (content : String) : LLMState :=
  if st.enableLimit
  then trimMessages { st with messages := st.messages ++ [⟨role, content⟩] }
  else { st with messages := st.messages ++ [⟨role, content⟩] }

lemma mem_sysMsgs_role {l : List Msg} {a : Msg} (ha : a ∈ sysMsgs l) :
    a.role = Role.system := by
  have := (List.mem_filter.mp (show a ∈ l.filter _ from ha)).2
  simpa using this

lemma mem_nonSysMsgs_role {l : List Msg} {a : Msg} (ha : a ∈ nonSysMsgs l) :
    ¬ a.role = Role.system := by
  have := (List.mem_filter.mp (show a ∈ l.filter _ from ha)).2
  simpa using this

lemma nonSysMsgs_sysMsgs (l : List Msg) : nonSysMsgs (sysMsgs l) = [] := by
  apply List.filter_eq_nil_iff.mpr
  intro a ha
  have := mem_sysMsgs_role ha
  simp [this]

lemma sysMsgs_sysMsgs (l : List Msg) : sysMsgs (sysMsgs l) = sysMsgs l := by
  apply List.filter_eq_self.mpr
  intro a ha
  simp [mem_sysMsgs_role ha]

lemma nonSysMsgs_idem (l : List Msg) : nonSysMsgs (nonSysMsgs l) = nonSysMsgs l := by
  apply List.filter_eq_self.mpr
  intro a ha
  simp [mem_nonSysMsgs_role ha]

lemma nonSysMsgs_append (l l' : List Msg) :
    nonSysMsgs (l ++ l') = nonSysMsgs l ++ nonSysMsgs l' := by
  unfold nonSysMsgs; rw [List.filter_append]

lemma sysMsgs_append (l l' : List Msg) :
    sysMsgs (l ++ l') = sysMsgs l ++ sysMsgs l' := by
  unfold sysMsgs; rw [List.filter_append]

lemma nonSysMsgs_drop (l : List Msg) (n : Nat) :
    nonSysMsgs ((nonSysMsgs l).drop n) = (nonSysMsgs l).drop n := by
  apply List.filter_eq_self.mpr
  intro a ha
  simp [mem_nonSysMsgs_role (List.drop_subset n _ ha)]

lemma sysMsgs_of_nonSys_drop (l : List Msg) (n : Nat) :
    sysMsgs ((nonSysMsgs l).drop n) = [] := by
  apply List.filter_eq_nil_iff.mpr
  intro a ha
  simp [mem_nonSysMsgs_role (List.drop_subset n _ ha)]

lemma sysMsgs_nonSysMsgs (l : List Msg) : sysMsgs (nonSysMsgs l) = [] := by
  apply List.filter_eq_nil_iff.mpr
  intro a ha
  simp [mem_nonSysMsgs_role ha]

lemma nonSys_trim_le (st : LLMState) (hlim : st.enableLimit = true)
    (hmax : 1 ≤ st.maxMessages) :
    (nonSysMsgs (trimMessages st).messages).length ≤ st.maxMessages := by
  unfold trimMessages
  split
  · next hcond =>
      rcases hcond with hc | hc
      · rw [hlim] at hc; cases hc
      · exact le_trans (List.length_filter_le _ _) hc
  · simp only
    rw [nonSysMsgs_append, nonSysMsgs_sysMsgs, List.nil_append]
    split
    · next hlen =>
        unfold pySliceLast
        rw [if_neg (by omega), nonSysMsgs_drop, List.length_drop]
        omega
    · next hlen =>
        rw [nonSysMsgs_idem]
        omega

lemma sysMsgs_trim (st : LLMState) :
    sysMsgs (trimMessages st).messages = sysMsgs st.messages := by
  unfold trimMessages
  split
  · rfl
  · simp only
    rw [sysMsgs_append, sysMsgs_sysMsgs]
    have h2 : sysMsgs (if st.maxMessages < (nonSysMsgs st.messages).length
        then pySliceLast (nonSysMsgs st.messages) st.maxMessages
        else nonSysMsgs st.messages) = [] := by
      split
      · unfold pySliceLast
        split
        · exact sysMsgs_nonSysMsgs _
        · exact sysMsgs_of_nonSys_drop _ _
      · exact sysMsgs_nonSysMsgs _
    rw [h2, List.append_nil]

lemma head_trim (st : LLMState) (m : Msg) (hhead : st.messages.head? = some m)
    (hrole : m.role = Role.system) :
    (trimMessages st).messages.head? = some m := by
  unfold trimMessages
  split
  · exact hhead
  · simp only
    cases hmsgs : st.messages with
    | nil => rw [hmsgs] at hhead; cases hhead
    | cons a rest =>
        rw [hmsgs] at hhead
        have ham : a = m := by simpa using hhead
        subst ham
        have hsys : sysMsgs (a :: rest) = a :: sysMsgs rest := by
          simp [sysMsgs, List.filter_cons, hrole]
        rw [hsys]
        simp

/-- C6 counterexample: with the limit enabled but `max_messages = 0`, the
Python slice `non_system_msgs[-0:]` is the whole list, so `add_message` does
not trim at all: the claim that after every `add_message` the non-system
messages are trimmed FIFO to at most `max_messages` is false. Concretely,
adding one user message to `[system]` under `max_messages = 0` leaves one
non-system message. -/
theorem C6_cex :
    ¬ (∀ (st : LLMState) (role : Role) (content : String),
        st.enableLimit = true →
        (nonSysMsgs (addMessage st role content).messages).length ≤ st.maxMessages) := by
  intro h
  have := h ⟨[⟨Role.system, "s"⟩], true, 0⟩ Role.user "u" (by decide)
  revert this
  decide

/-- C6 amended: after every `add_message` with the limit enabled and
`max_messages ≥ 1`, the non-system messages number at most `max_messages`
(with `max_messages = 0` the Python slice `[-0:]` keeps everything);
all system messages are always kept, a system message at index 0 stays at
index 0, and in the concrete scenario — system prompt, `max_messages = 2`,
five user/assistant turns — the history is exactly the system prompt plus the
two most recent non-system messages (length 3). -/
theorem C6_trim_invariants :
    (∀ (st : LLMState) (role : Role) (content : String),
      st.enableLimit = true → 1 ≤ st.maxMessages →
      (nonSysMsgs (addMessage st role content).messages).length ≤ st.maxMessages)
    ∧ (∀ (st : LLMState) (role : Role) (content : String), role ≠ Role.system →
      sysMsgs (addMessage st role content).messages = sysMsgs st.messages)
    ∧ (∀ (st : LLMState) (role : Role) (content : String) (m : Msg),
      st.messages.head? = some m → m.role = Role.system →
      (addMessage st role content).messages.head? = some m)
    ∧ (addMessage (addMessage (addMessage (addMessage (addMessage
        ⟨[⟨Role.system, "p"⟩], true, 2⟩
        Role.user "u1") Role.assistant "a1") Role.user "u2") Role.assistant "a2")
        Role.user "u3").messages
      = [⟨Role.system, "p"⟩, ⟨Role.assistant, "a2"⟩, ⟨Role.user, "u3"⟩] := by
  refine ⟨?_, ?_, ?_, by decide⟩
  · intro st role content hlim hmax
    unfold addMessage
    rw [if_pos hlim]
    exact nonSys_trim_le ⟨st.messages ++ [⟨role, content⟩], st.enableLimit,
      st.maxMessages⟩ hlim hmax
  · intro st role content hrole
    have hsingle : sysMsgs [(⟨role, content⟩ : Msg)] = [] := by
      simp [sysMsgs, List.filter_cons, hrole]
    unfold addMessage
    by_cases hlim : st.enableLimit = true
    · rw [if_pos hlim, sysMsgs_trim]
      simp only
      rw [sysMsgs_append, hsingle, List.append_nil]
    · rw [if_neg hlim]
      simp only
      rw [sysMsgs_append, hsingle, List.append_nil]
  · intro st role content m hhead hrole
    have hhead2 : (st.messages ++ [(⟨role, content⟩ : Msg)]).head? = some m := by
      cases hmsgs : st.messages with
      | nil => rw [hmsgs] at hhead; cases hhead
      | cons a rest => rw [hmsgs] at hhead; simpa using hhead
    unfold addMessage
    by_cases hlim : st.enableLimit = true
    · rw [if_pos hlim]
      exact head_trim ⟨st.messages ++ [⟨role, content⟩], st.enableLimit, st.maxMessages⟩
        m hhead2 hrole
    · rw [if_neg hlim]
      exact hhead2

/-- C6 witness: the amended invariants applied at the concrete state
`[system]` with `max_messages = 2` (limit enabled, `1 ≤ 2`, user role is not
system, head is the system message), adding one user message. -/
theorem C6_witness :
    ((LLMState.mk [⟨Role.system, "p"⟩] true 2).enableLimit = true
      ∧ 1 ≤ (LLMState.mk [⟨Role.system, "p"⟩] true 2).maxMessages
      ∧ (nonSysMsgs (addMessage ⟨[⟨Role.system, "p"⟩], true, 2⟩
          Role.user "u").messages).length ≤ 2)
    ∧ (Role.user ≠ Role.system
      ∧ sysMsgs (addMessage ⟨[⟨Role.system, "p"⟩], true, 2⟩ Role.user "u").messages
          = sysMsgs [⟨Role.system, "p"⟩])
    ∧ ((LLMState.mk [⟨Role.system, "p"⟩] true 2).messages.head?
          = some ⟨Role.system, "p"⟩
      ∧ (Msg.mk Role.system "p").role = Role.system
      ∧ (addMessage ⟨[⟨Role.system, "p"⟩], true, 2⟩ Role.user "u").messages.head?
          = some ⟨Role.system, "p"⟩) :=
  ⟨⟨by decide, by decide,
    C6_trim_invariants.1 ⟨[⟨Role.system, "p"⟩], true, 2⟩ Role.user "u" (by decide)
      (by decide)⟩,
   ⟨by decide,
    C6_trim_invariants.2.1 ⟨[⟨Role.system, "p"⟩], true, 2⟩ Role.user "u" (by decide)⟩,
   ⟨by decide, by decide,
    C6_trim_invariants.2.2.1 ⟨[⟨Role.system, "p"⟩], true, 2⟩ Role.user "u"
      ⟨Role.system, "p"⟩ (by decide) (by decide)⟩⟩

/-! ### `LLMClient._process_stream` (ai/llm_client.py)

```python
async def _process_stream(self, response):
    has_tool_call = False
    async for line in response.content:
        ...
        delta = data['choices'][0].get('delta', {})
        content = delta.get('content', '')
        tool_calls = delta.get('tool_calls', [])
        if tool_calls:
            has_tool_call = True
            for tool_call in tool_calls:
                function_info = tool_call.get('function', {})
                if function_info:
                    tool_name = function_info.get('name', '')
                    if tool_name and tool_name not in self.tool_name:
                        self.tool_name += tool_name
                    tool_args = function_info.get('arguments', '')
                    if tool_args:
                        self.tool_args += tool_args
                    self.usetool = True
        if content and not has_tool_call:
            yield content
```

The model starts at the decoded-chunk level (after the `data: ` prefix and
`[DONE]` handling and JSON decoding): a stream is a list of chunks, each with
a content string and a list of tool-call function fragments. -/

/-- A tool-call function fragment carried by a chunk: name part and arguments
part. -/
structure ToolCallFrag where
  name : List Char
  args : List Char
deriving Repr, DecidableEq

/-- One decoded stream chunk (`choices[0].delta`). -/
structure StreamChunk where
  content : List Char
  toolCalls : List ToolCallFrag
deriving Repr, DecidableEq

/-- Python `p in l` for character sequences: `pat` occurs contiguously in a
list starting at its head. -/
def seqPrefixOf : List Char → List Char → Bool
  | [], _ => true
  | _ :: _, [] => false
  | a :: as, b :: bs => decide (a = b) && seqPrefixOf as bs

/-- Python substring test `pat in l`. -/
def seqOccurs (pat : List Char) : List Char → Bool
  | [] => pat.isEmpty
  | b :: bs => seqPrefixOf pat (b :: bs) || seqOccurs pat bs

/-- Parser state across one streamed response: `has_tool_call`, accumulated
`self.tool_name` / `self.tool_args` / `self.usetool`, and the contents yielded
so far. -/
structure StreamState where
  hasToolCall : Bool
  toolName : List Char
  toolArgs : List Char
  useTool : Bool
  yielded : List (List Char)
deriving Repr, DecidableEq

/-- The inner `for tool_call in tool_calls` loop body. -/
def accumFrag (st : StreamState) (f : ToolCallFrag) : StreamState :=
  { st with
    toolName := if f.name ≠ [] ∧ seqOccurs f.name st.toolName = false
                then st.toolName ++ f.name else st.toolName
    toolArgs := if f.args ≠ [] then st.toolArgs ++ f.args else st.toolArgs
    useTool := true }

/-- Processing of one decoded chunk in `_process_stream`. -/
def processChunk (st : StreamState) (ch : StreamChunk) : StreamState :=
  if ch.toolCalls ≠ [] then
    ch.toolCalls.foldl accumFrag { st with hasToolCall := true }
  else if ch.content ≠ [] ∧ st.hasToolCall = false then
    { st with yielded := st.yielded ++ [ch.content] }
  else st

/-- Initial parser state (`has_tool_call = False`, fresh accumulators as reset
by `_handle_streaming_response`). -/
def streamInit : StreamState := ⟨false, [], [], false, []⟩

/-- `_process_stream` over a whole decoded stream: the list of contents
yielded to the speech pipeline, in order. -/
def processStream (chunks : List StreamChunk) : List (List Char) :=
  (chunks.foldl processChunk streamInit).yielded

lemma accumFrag_fields (st : StreamState) (f : ToolCallFrag) :
    (accumFrag st f).hasToolCall = st.hasToolCall
    ∧ (accumFrag st f).yielded = st.yielded := by
  unfold accumFrag
  exact ⟨rfl, rfl⟩

lemma accumFold_fields (fs : List ToolCallFrag) (st : StreamState) :
    (fs.foldl accumFrag st).hasToolCall = st.hasToolCall
    ∧ (fs.foldl accumFrag st).yielded = st.yielded := by
  induction fs generalizing st with
  | nil => exact ⟨rfl, rfl⟩
  | cons f fs ih =>
      rw [List.foldl_cons]
      rcases ih (accumFrag st f) with ⟨h1, h2⟩
      rw [h1, h2]
      exact accumFrag_fields st f

lemma processChunk_toolCall (st : StreamState) (ch : StreamChunk)
    (h : ch.toolCalls ≠ []) :
    (processChunk st ch).hasToolCall = true
    ∧ (processChunk st ch).yielded = st.yielded := by
  unfold processChunk
  rw [if_pos h]
  rcases accumFold_fields ch.toolCalls { st with hasToolCall := true } with ⟨h1, h2⟩
  exact ⟨h1, h2⟩

lemma processFold_locked (chunks : List StreamChunk) (st : StreamState)
    (h : st.hasToolCall = true) :
    (chunks.foldl processChunk st).yielded = st.yielded := by
  induction chunks generalizing st with
  | nil => rfl
  | cons ch chs ih =>
      rw [List.foldl_cons]
      by_cases hc : ch.toolCalls ≠ []
      · rcases processChunk_toolCall st ch hc with ⟨h1, h2⟩
        rw [ih _ h1, h2]
      · have hlock : (processChunk st ch).hasToolCall = true ∧
            (processChunk st ch).yielded = st.yielded := by
          unfold processChunk
          rw [if_neg hc, if_neg (by simp [h])]
          exact ⟨h, rfl⟩
        rw [ih _ hlock.1, hlock.2]

/-- C9: in `_process_stream`, a content token is yielded to the speech pipeline
iff no tool-call fragment has appeared in the stream at or before that token:
the yielded sequence is exactly the non-empty contents of the chunks strictly
preceding the first chunk carrying a tool-call fragment (a chunk that both
carries tool-call fragments and content has its content suppressed, and all
later content is suppressed as well). -/
theorem C9_stream_tool_call_gate :
    ∀ chunks : List StreamChunk,
      processStream chunks
        = ((chunks.takeWhile (fun ch => ch.toolCalls.isEmpty)).map
            (fun ch => ch.content)).filter (fun c => !c.isEmpty) := by
  intro chunks
  unfold processStream
  suffices h : ∀ (chs : List StreamChunk) (st : StreamState),
      st.hasToolCall = false →
      (chs.foldl processChunk st).yielded
        = st.yielded ++ ((chs.takeWhile (fun ch => ch.toolCalls.isEmpty)).map
            (fun ch => ch.content)).filter (fun c => !c.isEmpty) by
    rw [h chunks streamInit rfl]
    rfl
  intro chs
  induction chs with
  | nil => intro st _; simp
  | cons ch rest ih =>
      intro st hst
      rw [List.foldl_cons]
      by_cases hc : ch.toolCalls = []
      · have htw : (ch :: rest).takeWhile (fun ch => ch.toolCalls.isEmpty)
            = ch :: rest.takeWhile (fun ch => ch.toolCalls.isEmpty) := by
          rw [List.takeWhile_cons, if_pos (by simp [hc])]
        rw [htw]
        by_cases hcontent : ch.content = []
        · have hstep : processChunk st ch = st := by
            unfold processChunk
            rw [if_neg (by simpa using hc), if_neg (by simp [hcontent])]
          rw [hstep, ih st hst]
          simp [hcontent]
        · have hstep : processChunk st ch
              = { st with yielded := st.yielded ++ [ch.content] } := by
            unfold processChunk
            rw [if_neg (by simpa using hc), if_pos ⟨hcontent, hst⟩]
          rw [hstep, ih _ (by simp [hst])]
          simp [hcontent]
      · have htw : (ch :: rest).takeWhile (fun ch => ch.toolCalls.isEmpty) = [] := by
          rw [List.takeWhile_cons, if_neg (by simpa using hc)]
        rw [htw]
        rcases processChunk_toolCall st ch hc with ⟨h1, h2⟩
        rw [processFold_locked rest _ h1, h2]
        simp

/-! ### Tool-call argument extraction (ai/llm_client.py, `_handle_streaming_response`)

```python
tool_args_str = self.tool_args.strip()
if '}{' in tool_args_str:
    brace_count = 0
    end_pos = 0
    for i, char in enumerate(tool_args_str):
        if char == '{':
            brace_count += 1
        elif char == '}':
            brace_count -= 1
            if brace_count == 0:
                end_pos = i + 1
                break
    if end_pos > 0:
        tool_args_str = tool_args_str[:end_pos]
```
-/

/-- The brace scan of the extraction loop: position one past the first point
where the running brace count returns to zero on a closing brace (`end_pos`),
if any. -/
def firstBalancedEnd : List Char → Int → Nat → Option Nat
  | [], _, _ => none
  | c :: cs, depth, i =>
    if c = '{' then firstBalancedEnd cs (depth + 1) (i + 1)
    else if c = '}' then
      if depth - 1 = 0 then some (i + 1) else firstBalancedEnd cs (depth - 1) (i + 1)
    else firstBalancedEnd cs depth (i + 1)

/-- The defensive first-object extraction applied to the accumulated
`self.tool_args` before `json.loads`. -/
def extractFirstJson (s : List Char) : List Char :=
  if seqOccurs ['}', '{'] (pyStrip s) then
    match firstBalancedEnd (pyStrip s) 0 0 with
    | some e => (pyStrip s).take e
    | none => pyStrip s
  else pyStrip s

/-- Brace contribution of one character. -/
def braceDelta (c : Char) : Int :=
  if c = '{' then 1 else if c = '}' then -1 else 0

/-- `wnAux l d`: scanning `l` from running depth `d`, the depth stays
strictly positive after every character except the last, and is zero after
the last. -/
def wnAux : List Char → Int → Bool
  | [], _ => false
  | c :: cs, d =>
    match cs with
    | [] => decide (d + braceDelta c = 0)
    | _ :: _ => decide (0 < d + braceDelta c) && wnAux cs (d + braceDelta c)

/-- A balanced-brace object: starts with an opening brace, brace depth stays
positive inside and returns to zero exactly at the end. -/
def wellNested (l : List Char) : Bool :=
  decide (l.head? = some '{') && wnAux l 0

lemma braceDelta_open : braceDelta '{' = 1 := by decide

lemma braceDelta_close : braceDelta '}' = -1 := by decide

lemma braceDelta_other (c : Char) (h1 : ¬ c = '{') (h2 : ¬ c = '}') :
    braceDelta c = 0 := by
  simp [braceDelta, h1, h2]

lemma wnAux_one (c : Char) (d : Int) :
    wnAux [c] d = decide (d + braceDelta c = 0) := rfl

lemma wnAux_cons_cons (c c2 : Char) (cs2 : List Char) (d : Int) :
    wnAux (c :: c2 :: cs2) d
      = (decide (0 < d + braceDelta c) && wnAux (c2 :: cs2) (d + braceDelta c)) := rfl

lemma firstBalancedEnd_open (cs : List Char) (d : Int) (i : Nat) :
    firstBalancedEnd ('{' :: cs) d i = firstBalancedEnd cs (d + 1) (i + 1) := by
  simp [firstBalancedEnd]

lemma firstBalancedEnd_close (cs : List Char) (d : Int) (i : Nat) :
    firstBalancedEnd ('}' :: cs) d i
      = if d - 1 = 0 then some (i + 1) else firstBalancedEnd cs (d - 1) (i + 1) := by
  simp [firstBalancedEnd]

lemma firstBalancedEnd_other (c : Char) (cs : List Char) (d : Int) (i : Nat)
    (h1 : ¬ c = '{') (h2 : ¬ c = '}') :
    firstBalancedEnd (c :: cs) d i = firstBalancedEnd cs d (i + 1) := by
  simp [firstBalancedEnd, h1, h2]

lemma wnAux_single (c : Char) (d : Int) (h : wnAux [c] d = true) (hd : 1 ≤ d) :
    c = '}' ∧ d = 1 := by
  rw [wnAux_one, decide_eq_true_eq] at h
  by_cases h1 : c = '{'
  · rw [h1, braceDelta_open] at h; omega
  · by_cases h2 : c = '}'
    · refine ⟨h2, ?_⟩
      rw [h2, braceDelta_close] at h; omega
    · rw [braceDelta_other c h1 h2] at h; omega

lemma firstBalancedEnd_wn (a : List Char) :
    ∀ (b : List Char) (d : Int) (i : Nat), 1 ≤ d → wnAux a d = true →
      firstBalancedEnd (a ++ b) d i = some (i + a.length) := by
  induction a with
  | nil => intro b d i _ h; simp [wnAux] at h
  | cons c cs ih =>
      intro b d i hd h
      cases cs with
      | nil =>
          rcases wnAux_single c d h hd with ⟨hc, hd1⟩
          subst hc; subst hd1
          rw [List.cons_append, firstBalancedEnd_close,
            if_pos (by norm_num : (1 : Int) - 1 = 0)]
          simp
      | cons c2 cs2 =>
          rw [wnAux_cons_cons, Bool.and_eq_true, decide_eq_true_eq] at h
          obtain ⟨hpos, hr⟩ := h
          have hrec := ih b (d + braceDelta c) (i + 1) (by omega) hr
          have hlen : i + 1 + (c2 :: cs2).length = i + (c :: c2 :: cs2).length := by
            simp; omega
          rw [List.cons_append]
          by_cases h1 : c = '{'
          · subst h1
            rw [braceDelta_open] at hrec
            rw [firstBalancedEnd_open, hrec, hlen]
          · by_cases h2 : c = '}'
            · subst h2
              rw [braceDelta_close] at hrec hpos
              rw [firstBalancedEnd_close, if_neg (by omega), sub_eq_add_neg, hrec,
                hlen]
            · rw [braceDelta_other c h1 h2, add_zero] at hrec
              rw [firstBalancedEnd_other c _ _ _ h1 h2, hrec, hlen]

lemma wnAux_getLast (a : List Char) :
    ∀ d : Int, 1 ≤ d → wnAux a d = true → a.getLast? = some '}' := by
  induction a with
  | nil => intro d _ h; simp [wnAux] at h
  | cons c cs ih =>
      intro d hd h
      cases cs with
      | nil =>
          rcases wnAux_single c d h hd with ⟨hc, _⟩
          subst hc; rfl
      | cons c2 cs2 =>
          rw [wnAux_cons_cons, Bool.and_eq_true, decide_eq_true_eq] at h
          rw [List.getLast?_cons_cons]
          exact ih (d + braceDelta c) (by omega) h.2

lemma seqOccurs_junction (a : List Char) :
    ∀ b : List Char, a.getLast? = some '}' → b.head? = some '{' →
      seqOccurs ['}', '{'] (a ++ b) = true := by
  induction a with
  | nil => intro b h _; simp at h
  | cons c cs ih =>
      intro b hlast hhead
      cases cs with
      | nil =>
          have hc : c = '}' := by simpa using hlast
          subst hc
          cases b with
          | nil => simp at hhead
          | cons b0 bs =>
              have hb : b0 = '{' := by simpa using hhead
              subst hb
              simp [seqOccurs, seqPrefixOf]
      | cons c2 cs2 =>
          rw [List.getLast?_cons_cons] at hlast
          have hocc := ih b hlast hhead
          rw [List.cons_append]
          unfold seqOccurs
          rw [List.cons_append] at hocc ⊢
          rw [hocc]
          simp

lemma dropWhile_head_not (p : Char → Bool) (l : List Char) (c : Char)
    (hhead : l.head? = some c) (hc : p c = false) : l.dropWhile p = l := by
  cases l with
  | nil => simp at hhead
  | cons a rest =>
      have : a = c := by simpa using hhead
      subst this
      rw [List.dropWhile_cons, if_neg (by simp [hc])]

lemma pyStrip_of_ends (l : List Char) (c0 c1 : Char) (hhead : l.head? = some c0)
    (hlast : l.getLast? = some c1) (h0 : isPySpace c0 = false)
    (h1 : isPySpace c1 = false) : pyStrip l = l := by
  unfold pyStrip dropTrailingWhile
  rw [dropWhile_head_not _ _ _ hhead h0]
  rw [dropWhile_head_not _ _ _ (by rw [List.head?_reverse]; exact hlast) h1]
  exact List.reverse_reverse l

lemma wellNested_getLast (l : List Char) (h : wellNested l = true) :
    l.getLast? = some '}' := by
  simp only [wellNested, Bool.and_eq_true, decide_eq_true_eq] at h
  obtain ⟨hhead, hwn⟩ := h
  cases l with
  | nil => simp at hhead
  | cons c cs =>
      have hc : c = '{' := by simpa using hhead
      subst hc
      cases cs with
      | nil =>
          rw [wnAux_one, decide_eq_true_eq, braceDelta_open] at hwn
          omega
      | cons c2 cs2 =>
          rw [wnAux_cons_cons, Bool.and_eq_true, decide_eq_true_eq,
            braceDelta_open] at hwn
          rw [List.getLast?_cons_cons]
          exact wnAux_getLast (c2 :: cs2) (0 + 1) (by omega) hwn.2

/-- C7: when the accumulated tool-call arguments consist of two concatenated
balanced-brace objects, the extraction keeps only the first balanced-brace
object and ignores the remainder; in particular the accumulated string
`'{"a":1}{"b":2}'` yields `'{"a":1}'`. -/
theorem C7_extract_first_object :
    (∀ a b : List Char, wellNested a = true → wellNested b = true →
      extractFirstJson (a ++ b) = a)
    ∧ extractFirstJson "\x7b\"a\":1\x7d\x7b\"b\":2\x7d".toList
        = "\x7b\"a\":1\x7d".toList := by
  constructor
  · intro a b ha hb
    have hlasta : a.getLast? = some '}' := wellNested_getLast a ha
    have hlastb : b.getLast? = some '}' := wellNested_getLast b hb
    have hbne : b ≠ [] := by
      intro hcon
      rw [hcon] at hlastb
      simp at hlastb
    have hlastab : (a ++ b).getLast? = some '}' := by
      rw [List.getLast?_append_of_ne_nil a hbne]
      exact hlastb
    simp only [wellNested, Bool.and_eq_true, decide_eq_true_eq] at ha hb
    obtain ⟨hahead, hawn⟩ := ha
    obtain ⟨hbhead, hbwn⟩ := hb
    have hjunction : seqOccurs ['}', '{'] (a ++ b) = true :=
      seqOccurs_junction a b hlasta hbhead
    cases a with
    | nil => simp at hahead
    | cons a0 as =>
        have ha0 : a0 = '{' := by simpa using hahead
        subst ha0
        have hheadab : (('{' :: as) ++ b).head? = some '{' := by simp
        have hstrip : pyStrip (('{' :: as) ++ b) = ('{' :: as) ++ b :=
          pyStrip_of_ends _ '{' '}' hheadab hlastab (by decide) (by decide)
        cases as with
        | nil =>
            rw [wnAux_one, decide_eq_true_eq, braceDelta_open] at hawn
            omega
        | cons a1 as1 =>
            rw [wnAux_cons_cons, Bool.and_eq_true, decide_eq_true_eq,
              braceDelta_open] at hawn
            have hawn2 : wnAux (a1 :: as1) 1 = true := by
              have h2 := hawn.2
              norm_num at h2
              exact h2
            have hfbe : firstBalancedEnd (('{' :: a1 :: as1) ++ b) 0 0
                = some ('{' :: a1 :: as1).length := by
              rw [List.cons_append, firstBalancedEnd_open,
                firstBalancedEnd_wn (a1 :: as1) b (0 + 1) (0 + 1)
                  (by norm_num) (by norm_num; exact hawn2)]
              simp
              omega
            unfold extractFirstJson
            rw [hstrip, if_pos hjunction, hfbe]
            exact List.take_left _ _
  · decide

/-- C7 witness: the general first-object extraction applied to the two
concrete balanced objects of the claim (each of which is well nested). -/
theorem C7_witness :
    wellNested "\x7b\"a\":1\x7d".toList = true
    ∧ wellNested "\x7b\"b\":2\x7d".toList = true
    ∧ extractFirstJson ("\x7b\"a\":1\x7d".toList ++ "\x7b\"b\":2\x7d".toList)
        = "\x7b\"a\":1\x7d".toList :=
  ⟨by decide, by decide, C7_extract_first_object.1 _ _ (by decide) (by decide)⟩

/-! ### Recording finalize (voice/asr_client.py)

```python
async def finish_recording(self):
    if not self.is_recording or self.is_processing_audio or self.asr_locked:
        return
    self.is_recording = False
    self.asr_locked = True
    try:
        current_buffer_length = len(self.continuous_buffer)
        actual_start_index = max(0, min(self.recording_start_index, current_buffer_length - 1))
        recorded_samples = self.continuous_buffer[actual_start_index:current_buffer_length].copy()
        if len(recorded_samples) > self.sample_rate * 0.3:        # 16000 * 0.3 = 4800.0
            processed_samples = self._remove_silence(recorded_samples)
            if len(processed_samples) > self.sample_rate * 0.2:   # 3200.0
                wav_blob = self.float32_to_wav(processed_samples)
                await self.process_recording(wav_blob)
            else:
                self._unlock_asr()
        else:
            self._unlock_asr()
    finally:
        self._cleanup_audio_buffer()    # keep the last 1 s of buffer

def _remove_silence(self, audio_data, threshold=0.01):
    energy = np.abs(audio_data)
    start_idx = 0
    end_idx = len(audio_data)
    for i in range(len(energy)):
        if energy[i] > threshold:
            start_idx = max(0, i - int(0.1 * self.sample_rate))   # i - 1600
            break
    for i in range(len(energy) - 1, -1, -1):
        if energy[i] > threshold:
            end_idx = min(len(audio_data), i + int(0.1 * self.sample_rate))
            break
    return audio_data[start_idx:end_idx]

async def process_recording(self, audio_blob):
    try:
        ... POST to self.asr_url ...
        on success with non-empty text: publish "speech_recognized"
    finally:
        self._unlock_asr()          # asr_locked = False + user_speaking event
        self._cleanup_audio_queue()
```

Sample values are rationals; `sample_rate` is the fixed 16000. The integer
comparisons `len > 4800` / `len > 3200` coincide with the Python float
comparisons since `16000*0.3 == 4800.0` and `16000*0.2 == 3200.0` exactly.
The network outcome of the transcription POST is an oracle parameter. -/

/-- Externally visible actions of `finish_recording`/`process_recording`,
in program order. -/
inductive AsrAction where
  | transcribeRequest
  | publishSpeechRecognized (text : List Char)
  | unlock
  | publishUserSpeakingFalse
  | cleanupQueue
deriving Repr, DecidableEq

/-- Outcome of the transcription POST: a successful response carrying
non-empty text, or anything else (non-200 status, a failure status,
empty text, timeout, exception). -/
inductive TranscribeOutcome where
  | success (text : List Char)
  | failure
deriving Repr, DecidableEq

/-- `ASRClient` recording state (the fields `finish_recording` touches). -/
structure AsrState where
  isRecording : Bool
  isProcessingAudio : Bool
  asrLocked : Bool
  buffer : List Rat
  recordingStartIndex : Nat
deriving Repr, DecidableEq

/-- The default energy threshold `0.01` of `_remove_silence`, as the reduced
rational `1/100` (stored in normal form so that comparisons against it reduce
definitionally). -/
def energyThreshold : Rat := ⟨1, 100, by norm_num, by norm_num⟩

lemma energyThreshold_eq : energyThreshold = 1 / 100 := by
  show Rat.mk' 1 100 = 1 / 100
  rw [Rat.mk'_eq_divInt, Rat.divInt_eq_div]
  norm_num

/-- `ASRClient._remove_silence` with `sample_rate = 16000`
(`int(0.1 * 16000) = 1600`). -/
def removeSilence (audio : List Rat) (threshold : Rat) : List Rat :=
  (audio.take
    (match audio.reverse.findIdx? (fun x => decide (threshold < |x|)) with
     | some j => min audio.length (audio.length - 1 - j + 1600)
     | none => audio.length)).drop
    (match audio.findIdx? (fun x => decide (threshold < |x|)) with
     | some i => i - 1600
     | none => 0)

/-- The slice `continuous_buffer[actual_start_index:current_buffer_length]`
with `actual_start_index = max(0, min(recording_start_index, length - 1))`. -/
def extractRecorded (st : AsrState) : List Rat :=
  st.buffer.drop (min st.recordingStartIndex (st.buffer.length - 1))

/-- `ASRClient._cleanup_audio_buffer`: keep only the last second (16000
samples). -/
def cleanupBuffer (st : AsrState) : AsrState :=
  if 16000 < st.buffer.length
  then { st with buffer := st.buffer.drop (st.buffer.length - 16000) }
  else st

/-- Action trace of `ASRClient.process_recording`: the POST, the
`speech_recognized` publish on full success, then — in `finally`, on every
path — `_unlock_asr` (which also publishes `user_speaking: False`) and the
queue cleanup. -/
def processRecordingTrace (o : TranscribeOutcome) : List AsrAction :=
  [AsrAction.transcribeRequest]
    ++ (match o with
        | TranscribeOutcome.success t => [AsrAction.publishSpeechRecognized t]
        | TranscribeOutcome.failure => [])
    ++ [AsrAction.unlock, AsrAction.publishUserSpeakingFalse, AsrAction.cleanupQueue]

/-- `ASRClient.finish_recording` (with the transcription outcome `o` as
oracle): returns the post-state together with the emitted action trace. -/
def finishRecording (st : AsrState) (o : TranscribeOutcome) :
    AsrState × List AsrAction :=
  if st.isRecording = false ∨ st.isProcessingAudio = true ∨ st.asrLocked = true
  then (st, [])
  else
    if 4800 < (extractRecorded st).length then
      if 3200 < (removeSilence (extractRecorded st) energyThreshold).length then
        (cleanupBuffer { st with isRecording := false, asrLocked := false },
          processRecordingTrace o)
      else
        (cleanupBuffer { st with isRecording := false, asrLocked := false },
          [AsrAction.unlock, AsrAction.publishUserSpeakingFalse])
    else
      (cleanupBuffer { st with isRecording := false, asrLocked := false },
        [AsrAction.unlock, AsrAction.publishUserSpeakingFalse])

/-- `AppManager._check_and_update_asr_status`: the new value of
`asr_client.asr_locked` as a function of the polled TTS activity flags. -/
def checkAndUpdateAsrStatus (ttsActive isPlayingAudio locked : Bool) : Bool :=
  if ttsActive && isPlayingAudio then true
  else if !ttsActive && !isPlayingAudio then false
  else locked

lemma cleanupBuffer_flags (st : AsrState) :
    (cleanupBuffer st).asrLocked = st.asrLocked
    ∧ (cleanupBuffer st).isRecording = st.isRecording := by
  unfold cleanupBuffer
  split <;> exact ⟨rfl, rfl⟩

/-- C10: an all-silent buffer passes through `_remove_silence` unchanged: if no
sample's absolute value exceeds the energy threshold `0.01`, both scan loops
run off the end, leaving `start_idx = 0` and `end_idx = len`, so the returned
slice is the whole buffer. -/
theorem C10_all_silent_unchanged :
    ∀ audio : List Rat, (∀ x ∈ audio, |x| ≤ energyThreshold) →
      removeSilence audio energyThreshold = audio := by
  intro audio h
  have hnone : audio.findIdx? (fun x => decide (energyThreshold < |x|)) = none := by
    rw [List.findIdx?_eq_none_iff]
    intro x hx
    simpa using not_lt.mpr (h x hx)
  have hnoner : audio.reverse.findIdx? (fun x => decide (energyThreshold < |x|))
      = none := by
    rw [List.findIdx?_eq_none_iff]
    intro x hx
    simpa using not_lt.mpr (h x (List.mem_reverse.mp hx))
  unfold removeSilence
  rw [hnone, hnoner]
  simp [List.take_length]

/-- C10 witness: a concrete all-silent buffer (every sample below the
threshold) is returned unchanged. -/
theorem C10_witness :
    (∀ x ∈ [(0:Rat), 0, 0], |x| ≤ energyThreshold)
    ∧ removeSilence [0, 0, 0] energyThreshold = [0, 0, 0] :=
  ⟨by decide, C10_all_silent_unchanged [0, 0, 0] (by decide)⟩

/-- C8: a finalized recording whose raw extracted utterance is shorter than
0.3 s (4800 samples at 16 kHz) is discarded: no transcription request is
issued, the ASR lock ends up released, and recording is stopped. -/
theorem C8_short_discard :
    ∀ (st : AsrState) (o : TranscribeOutcome),
      st.isRecording = true → st.isProcessingAudio = false → st.asrLocked = false →
      (extractRecorded st).length < 4800 →
      AsrAction.transcribeRequest ∉ (finishRecording st o).2
      ∧ AsrAction.unlock ∈ (finishRecording st o).2
      ∧ (finishRecording st o).1.asrLocked = false
      ∧ (finishRecording st o).1.isRecording = false := by
  intro st o hrec hproc hlock hshort
  unfold finishRecording
  rw [if_neg (by simp [hrec, hproc, hlock]), if_neg (by omega)]
  refine ⟨by simp, by simp, ?_, ?_⟩
  · rw [(cleanupBuffer_flags _).1]
  · rw [(cleanupBuffer_flags _).2]

/-- C8 witness: a concrete 100-sample (6.25 ms) recording — shorter than the
4800-sample minimum, finalized from a recording unlocked state — is discarded
with the lock released and no transcription request. -/
theorem C8_witness :
    (extractRecorded ⟨true, false, false, List.replicate 100 1, 0⟩).length < 4800
    ∧ AsrAction.transcribeRequest
        ∉ (finishRecording ⟨true, false, false, List.replicate 100 1, 0⟩
            TranscribeOutcome.failure).2
    ∧ AsrAction.unlock
        ∈ (finishRecording ⟨true, false, false, List.replicate 100 1, 0⟩
            TranscribeOutcome.failure).2
    ∧ (finishRecording ⟨true, false, false, List.replicate 100 1, 0⟩
        TranscribeOutcome.failure).1.asrLocked = false
    ∧ (finishRecording ⟨true, false, false, List.replicate 100 1, 0⟩
        TranscribeOutcome.failure).1.isRecording = false :=
  ⟨by decide,
   C8_short_discard ⟨true, false, false, List.replicate 100 1, 0⟩
    TranscribeOutcome.failure (by decide) (by decide) (by decide) (by decide)⟩

lemma findIdx?_replicate_loud (m : Nat) :
    (List.replicate (m + 1) (1:Rat)).findIdx?
      (fun x => decide (energyThreshold < |x|)) = some 0 := by
  have hp : decide (energyThreshold < |(1:Rat)|) = true := by decide
  rw [List.replicate_succ, List.findIdx?_cons]
  simp only [hp]
  rfl

lemma removeSilence_replicate_loud :
    removeSilence (List.replicate 4801 (1:Rat)) energyThreshold
      = List.replicate 4801 1 := by
  unfold removeSilence
  rw [List.reverse_replicate, findIdx?_replicate_loud 4800]
  simp only [List.length_replicate]
  rw [show ((4801:Nat) ⊓ (4801 - 1 - 0 + 1600)) = 4801 by omega]
  rw [List.take_replicate, show ((4801:Nat) ⊓ 4801) = 4801 by omega,
    show (0:Nat) - 1600 = 0 by omega, List.drop_zero]

lemma extractRecorded_replicate_loud :
    extractRecorded ⟨true, false, false, List.replicate 4801 (1:Rat), 0⟩
      = List.replicate 4801 1 := by
  unfold extractRecorded
  rw [show (min 0 ((List.replicate 4801 (1:Rat)).length - 1)) = 0 from
    Nat.zero_min _, List.drop_zero]

lemma extractRecorded_loud_len :
    4800 < (extractRecorded ⟨true, false, false, List.replicate 4801 (1:Rat), 0⟩).length := by
  rw [extractRecorded_replicate_loud, List.length_replicate]
  omega

lemma removeSilence_loud_len :
    3200 < (removeSilence
      (extractRecorded ⟨true, false, false, List.replicate 4801 (1:Rat), 0⟩)
      energyThreshold).length := by
  rw [extractRecorded_replicate_loud, removeSilence_replicate_loud,
    List.length_replicate]
  omega

lemma finishRecording_loud_trace (o : TranscribeOutcome) :
    (finishRecording ⟨true, false, false, List.replicate 4801 (1:Rat), 0⟩ o).2
      = processRecordingTrace o := by
  unfold finishRecording
  rw [if_neg (by simp), if_pos extractRecorded_loud_len,
    if_pos removeSilence_loud_len]

/-- C1 counterexample: the claim that once `asr_locked` is set at finalize it
is never released immediately after the transcription request returns — only
when the whole downstream turn (LLM, TTS) has completed — is false:
`process_recording` calls `_unlock_asr()` in its `finally`, so on a
long-enough utterance `finish_recording`'s own trace contains the unlock,
before any LLM or TTS work has run (the `speech_recognized` event has merely
been published). -/
theorem C1_cex :
    ¬ (∀ (st : AsrState) (o : TranscribeOutcome),
        st.isRecording = true → st.isProcessingAudio = false →
        st.asrLocked = false →
        4800 < (extractRecorded st).length →
        3200 < (removeSilence (extractRecorded st) energyThreshold).length →
        AsrAction.unlock ∉ (finishRecording st o).2) := by
  intro h
  apply h ⟨true, false, false, List.replicate 4801 1, 0⟩
    (TranscribeOutcome.success ['h', 'i'])
    rfl rfl rfl extractRecorded_loud_len removeSilence_loud_len
  rw [finishRecording_loud_trace]
  simp [processRecordingTrace]

/-- C1 amended: the lock taken at finalize is released when
`process_recording` finishes — immediately after the transcription round-trip,
on success and failure alike — and mutual exclusion for the rest of the turn
is re-established separately by the coordinator: on a long-enough utterance
the emitted trace is exactly `process_recording`'s trace, which contains the
unlock, and the post-state is unlocked; `_check_and_update_asr_status` sets
`asr_locked` while TTS is active-and-playing and clears it when TTS is fully
idle. -/
theorem C1_unlock_after_transcription :
    (∀ (st : AsrState) (o : TranscribeOutcome),
      st.isRecording = true → st.isProcessingAudio = false → st.asrLocked = false →
      4800 < (extractRecorded st).length →
      3200 < (removeSilence (extractRecorded st) energyThreshold).length →
      (finishRecording st o).2 = processRecordingTrace o
      ∧ AsrAction.unlock ∈ (finishRecording st o).2
      ∧ (finishRecording st o).1.asrLocked = false)
    ∧ (∀ o : TranscribeOutcome, AsrAction.unlock ∈ processRecordingTrace o)
    ∧ (∀ locked : Bool, checkAndUpdateAsrStatus true true locked = true)
    ∧ (∀ locked : Bool, checkAndUpdateAsrStatus false false locked = false) := by
  refine ⟨?_, ?_, ?_, ?_⟩
  · intro st o hrec hproc hlock hlong hproclong
    unfold finishRecording
    rw [if_neg (by simp [hrec, hproc, hlock]), if_pos hlong, if_pos hproclong]
    refine ⟨rfl, ?_, ?_⟩
    · cases o <;> simp [processRecordingTrace]
    · rw [(cleanupBuffer_flags _).1]
  · intro o
    cases o <;> simp [processRecordingTrace]
  · intro locked; rfl
  · intro locked; rfl

/-- C1 witness: the amended statement at a concrete 4801-sample loud
recording (long enough raw and after silence-trimming) with a successful
transcription. -/
theorem C1_witness :
    (4800 < (extractRecorded ⟨true, false, false, List.replicate 4801 1, 0⟩).length
      ∧ 3200 < (removeSilence
          (extractRecorded ⟨true, false, false, List.replicate 4801 1, 0⟩)
          energyThreshold).length)
    ∧ (finishRecording ⟨true, false, false, List.replicate 4801 1, 0⟩
        (TranscribeOutcome.success ['h', 'i'])).2
      = processRecordingTrace (TranscribeOutcome.success ['h', 'i'])
    ∧ AsrAction.unlock
        ∈ (finishRecording ⟨true, false, false, List.replicate 4801 1, 0⟩
            (TranscribeOutcome.success ['h', 'i'])).2
    ∧ (finishRecording ⟨true, false, false, List.replicate 4801 1, 0⟩
        (TranscribeOutcome.success ['h', 'i'])).1.asrLocked = false :=
  ⟨⟨extractRecorded_loud_len, removeSilence_loud_len⟩,
   C1_unlock_after_transcription.1 ⟨true, false, false, List.replicate 4801 1, 0⟩
    (TranscribeOutcome.success ['h', 'i'])
    rfl rfl rfl extractRecorded_loud_len removeSilence_loud_len⟩

/-! ### VAD frame handling (voice/asr_client.py)

```python
# websocket_listener loop body, per received frame:
if self.is_processing_audio or self.asr_locked:
    continue                       # frames ignored while locked
if is_speaking: await self.handle_speech()
else:          await self.handle_silence()

async def handle_speech(self):
    if self.is_processing_audio or self.asr_locked: return
    self.last_speech_time = time.time() * 1000
    if self.silence_timeout_task:
        self.silence_timeout_task.cancel()
        self.silence_timeout_task = None
    if not self.is_recording:
        self.is_recording = True
        ... record start index ...

async def handle_silence(self):
    if self.is_processing_audio or self.asr_locked: return
    if self.is_recording:
        silence_duration = time.time() * 1000 - self.last_speech_time
        if not self.silence_timeout_task and silence_duration >= self.silence_threshold:
            self.silence_timeout_task = asyncio.create_task(self.silence_timeout_handler())

async def silence_timeout_handler(self):
    try:
        await asyncio.sleep(self.silence_threshold / 1000)   # 500 ms
        await self.finish_recording()
    except asyncio.CancelledError: ...
    finally:
        self.silence_timeout_task = None
```

Timed model: frames carry millisecond timestamps; a pending silence-timeout is
its firing deadline (creation time + 500). The event loop is modelled as
firing a due timer before handling any frame whose timestamp has reached the
deadline. Firing runs `finish_recording`, which (guards permitting) stops
recording, sets `asr_locked` and records a finalize at the deadline; the
downstream unlock (`process_recording`'s `finally`, namely the audio-dependent
part modelled separately by `finishRecording` above) is outside this
frame-level model, so the lock simply stays held after a finalize. -/

/-- One VAD frame: arrival time in ms and the `is_speech` flag. -/
structure VadFrame where
  time : Nat
  isSpeech : Bool
deriving Repr, DecidableEq

/-- Frame-level ASR state: recording flag, lock flags, `last_speech_time`,
the pending silence-timeout deadline, and the times of fired finalizes. -/
structure VadState where
  isRecording : Bool
  isProcessingAudio : Bool
  asrLocked : Bool
  lastSpeechTime : Nat
  pending : Option Nat
  finalizes : List Nat
deriving Repr, DecidableEq

/-- State after startup (the `AppManager` unlocks the initially-locked ASR
once TTS is idle). -/
def initVadState : VadState := ⟨false, false, false, 0, none, []⟩

/-- The silence-timeout firing at its deadline `d`: the `finally` clears the
task; `finish_recording`'s guard then either returns or stops recording, locks
the ASR and finalizes. -/
def fireTimer (st : VadState) (d : Nat) : VadState :=
  if st.isRecording = false ∨ st.isProcessingAudio = true ∨ st.asrLocked = true
  then { st with pending := none }
  else { st with
    pending := none
    isRecording := false
    asrLocked := true
    finalizes := st.finalizes ++ [d] }

/-- Fire the pending timeout if its deadline has been reached by `now`. -/
def maybeFire (st : VadState) (now : Nat) : VadState :=
  match st.pending with
  | some d => if d ≤ now then fireTimer st d else st
  | none => st

/-- `handle_speech` / `handle_silence` on one frame (after any due timer has
fired). -/
def processFrame (st : VadState) (f : VadFrame) : VadState :=
  if st.isProcessingAudio = true ∨ st.asrLocked = true then st
  else if f.isSpeech then
    { st with lastSpeechTime := f.time, pending := none, isRecording := true }
  else if st.isRecording = true then
    if st.pending = none ∧ 500 ≤ f.time - st.lastSpeechTime then
      { st with pending := some (f.time + 500) }
    else st
  else st

/-- Full handling of one frame. -/
def handleFrame (st : VadState) (f : VadFrame) : VadState :=
  processFrame (maybeFire st f.time) f

/-- Run the machine over a frame sequence. -/
def runVad (st : VadState) (fs : List VadFrame) : VadState :=
  fs.foldl handleFrame st

/-- Run over a frame sequence and then let time advance to the horizon `T`
(firing a still-pending timer whose deadline lies within the horizon). -/
def runVadHorizon (st : VadState) (fs : List VadFrame) (T : Nat) : VadState :=
  maybeFire (runVad st fs) T

/-- Frame timestamps strictly ascending, starting after `t`. -/
def framesAsc : Nat → List VadFrame → Bool
  | _, [] => true
  | t, f :: fs => decide (t < f.time) && framesAsc f.time fs

/-- C2 counterexample: the claim that on an `isSpeech=false` frame while
recording, with no silence-timeout pending, a 500 ms timeout is always
started, is false: `handle_silence` additionally requires that at least
`silence_threshold` (500 ms) have already elapsed since the last speech frame.
Concretely, after speech at 10 ms, a silence frame at 110 ms starts no
timeout. -/
theorem C2_cex :
    ¬ (∀ (st : VadState) (t : Nat),
        st.isRecording = true → st.isProcessingAudio = false →
        st.asrLocked = false → st.pending = none →
        (handleFrame st ⟨t, false⟩).pending = some (t + 500)) := by
  intro h
  have hinst := h (handleFrame initVadState ⟨10, true⟩) 110
    (by decide) (by decide) (by decide) (by decide)
  exact absurd hinst (by decide)

/-- Inductive invariant of the frame machine after processing frames up to
time `t0`. -/
def VadInv (st : VadState) (t0 : Nat) : Prop :=
  st.isProcessingAudio = false
  ∧ (st.asrLocked = true → st.pending = none)
  ∧ (st.asrLocked = false → st.finalizes = [])
  ∧ (∀ d, st.pending = some d →
      st.isRecording = true ∧ st.asrLocked = false
      ∧ st.lastSpeechTime + 1000 ≤ d ∧ t0 < d)
  ∧ st.lastSpeechTime ≤ t0
  ∧ (∀ d ∈ st.finalizes, d ≤ t0)

lemma vadInv_init : VadInv initVadState 0 := by
  unfold VadInv initVadState
  refine ⟨rfl, fun _ => rfl, fun _ => rfl, ?_, le_refl 0, ?_⟩
  · intro d hd
    cases hd
  · intro d hd
    cases hd

lemma maybeFire_none (st : VadState) (T : Nat) (hp : st.pending = none) :
    maybeFire st T = st := by
  unfold maybeFire
  rw [hp]

lemma maybeFire_skip (st : VadState) (d0 T : Nat) (hp : st.pending = some d0)
    (hT : ¬ d0 ≤ T) : maybeFire st T = st := by
  unfold maybeFire
  rw [hp]
  show (if d0 ≤ T then fireTimer st d0 else st) = st
  rw [if_neg hT]

lemma maybeFire_fire (st : VadState) (d0 T : Nat) (hp : st.pending = some d0)
    (hT : d0 ≤ T) (hrec : st.isRecording = true)
    (hproc : st.isProcessingAudio = false) (hl : st.asrLocked = false) :
    maybeFire st T = { st with
      pending := none
      isRecording := false
      asrLocked := true
      finalizes := st.finalizes ++ [d0] } := by
  unfold maybeFire
  rw [hp]
  show (if d0 ≤ T then fireTimer st d0 else st) = _
  rw [if_pos hT]
  unfold fireTimer
  rw [if_neg (by simp [hrec, hproc, hl])]

lemma processFrame_blocked (st : VadState) (f : VadFrame)
    (h : st.isProcessingAudio = true ∨ st.asrLocked = true) :
    processFrame st f = st := by
  unfold processFrame
  rw [if_pos h]

lemma processFrame_speech (st : VadState) (f : VadFrame)
    (hproc : st.isProcessingAudio = false) (hl : st.asrLocked = false)
    (hsp : f.isSpeech = true) :
    processFrame st f
      = { st with lastSpeechTime := f.time, pending := none, isRecording := true } := by
  unfold processFrame
  rw [if_neg (by simp [hproc, hl]), if_pos hsp]

lemma processFrame_silence (st : VadState) (f : VadFrame)
    (hproc : st.isProcessingAudio = false) (hl : st.asrLocked = false)
    (hsp : f.isSpeech = false) :
    processFrame st f
      = if st.isRecording = true then
          (if st.pending = none ∧ 500 ≤ f.time - st.lastSpeechTime
           then { st with pending := some (f.time + 500) } else st)
        else st := by
  unfold processFrame
  rw [if_neg (by simp [hproc, hl]), if_neg (by simp [hsp])]

lemma handleFrame_locked (st : VadState) (f : VadFrame)
    (hl : st.asrLocked = true) (hp : st.pending = none) : handleFrame st f = st := by
  unfold handleFrame
  rw [maybeFire_none st f.time hp, processFrame_blocked st f (Or.inr hl)]

lemma runVadHorizon_locked (fs : List VadFrame) (st : VadState) (T : Nat)
    (hl : st.asrLocked = true) (hp : st.pending = none) :
    runVadHorizon st fs T = st := by
  induction fs with
  | nil => exact maybeFire_none st T hp
  | cons f fs ih =>
      unfold runVadHorizon runVad at *
      rw [List.foldl_cons, handleFrame_locked st f hl hp]
      exact ih

lemma framesAsc_cons (t : Nat) (f : VadFrame) (fs : List VadFrame)
    (h : framesAsc t (f :: fs) = true) :
    t < f.time ∧ framesAsc f.time fs = true := by
  rw [show framesAsc t (f :: fs)
      = (decide (t < f.time) && framesAsc f.time fs) from rfl,
    Bool.and_eq_true, decide_eq_true_eq] at h
  exact h

lemma vadInv_step (st : VadState) (f : VadFrame) (t0 : Nat)
    (h : VadInv st t0) (ht : t0 < f.time) : VadInv (handleFrame st f) f.time := by
  obtain ⟨hproc, hlp, hlf, hpend, hlast, hfin⟩ := h
  unfold handleFrame
  by_cases hl : st.asrLocked = true
  · have hp := hlp hl
    rw [maybeFire_none st f.time hp, processFrame_blocked st f (Or.inr hl)]
    refine ⟨hproc, hlp, hlf, ?_, le_trans hlast (le_of_lt ht), ?_⟩
    · intro d hd
      rw [hp] at hd
      cases hd
    · intro d hd
      exact le_trans (hfin d hd) (le_of_lt ht)
  · have hl' : st.asrLocked = false := by simpa using hl
    cases hp : st.pending with
    | none =>
        rw [maybeFire_none st f.time hp]
        by_cases hsp : f.isSpeech = true
        · rw [processFrame_speech st f hproc hl' hsp]
          refine ⟨hproc, fun _ => rfl, fun _ => hlf hl', ?_, le_refl _, ?_⟩
          · intro d hd
            simp at hd
          · intro d hd
            exact le_trans (hfin d hd) (le_of_lt ht)
        · have hsp' : f.isSpeech = false := by simpa using hsp
          rw [processFrame_silence st f hproc hl' hsp']
          by_cases hrec : st.isRecording = true
          · rw [if_pos hrec]
            by_cases hc : st.pending = none ∧ 500 ≤ f.time - st.lastSpeechTime
            · rw [if_pos hc]
              refine ⟨hproc, ?_, fun _ => hlf hl', ?_,
                le_trans hlast (le_of_lt ht), ?_⟩
              · intro hcon
                have hcon2 : st.asrLocked = true := hcon
                rw [hl'] at hcon2
                cases hcon2
              · intro d hd
                have hd2 : f.time + 500 = d := by simpa using hd
                subst hd2
                have hc2 := hc.2
                refine ⟨hrec, hl', ?_, ?_⟩
                · show st.lastSpeechTime + 1000 ≤ f.time + 500
                  omega
                · omega
              · intro d hd
                exact le_trans (hfin d hd) (le_of_lt ht)
            · rw [if_neg hc]
              refine ⟨hproc, hlp, hlf, ?_, le_trans hlast (le_of_lt ht), ?_⟩
              · intro d hd
                rw [hp] at hd
                cases hd
              · intro d hd
                exact le_trans (hfin d hd) (le_of_lt ht)
          · rw [if_neg hrec]
            refine ⟨hproc, hlp, hlf, ?_, le_trans hlast (le_of_lt ht), ?_⟩
            · intro d hd
              rw [hp] at hd
              cases hd
            · intro d hd
              exact le_trans (hfin d hd) (le_of_lt ht)
    | some d0 =>
        obtain ⟨hrec, hl2, hsep, htd⟩ := hpend d0 hp
        by_cases hfire : d0 ≤ f.time
        · rw [maybeFire_fire st d0 f.time hp hfire hrec hproc hl',
            processFrame_blocked _ f (Or.inr rfl)]
          refine ⟨hproc, fun _ => rfl, ?_, ?_, le_trans hlast (le_of_lt ht), ?_⟩
          · intro hcon
            have hcon2 : (true : Bool) = false := hcon
            cases hcon2
          · intro d hd
            simp at hd
          · intro d hd
            have hd2 : d ∈ st.finalizes ++ [d0] := hd
            rw [hlf hl', List.nil_append, List.mem_singleton] at hd2
            subst hd2
            omega
        · rw [maybeFire_skip st d0 f.time hp hfire]
          by_cases hsp : f.isSpeech = true
          · rw [processFrame_speech st f hproc hl' hsp]
            refine ⟨hproc, fun _ => rfl, fun _ => hlf hl', ?_, le_refl _, ?_⟩
            · intro d hd
              simp at hd
            · intro d hd
              exact le_trans (hfin d hd) (le_of_lt ht)
          · have hsp' : f.isSpeech = false := by simpa using hsp
            rw [processFrame_silence st f hproc hl' hsp', if_pos hrec,
              if_neg (by simp [hp])]
            refine ⟨hproc, hlp, hlf, ?_, le_trans hlast (le_of_lt ht), ?_⟩
            · intro d hd
              rw [hp, Option.some.injEq] at hd
              subst hd
              exact ⟨hrec, hl', hsep, by omega⟩
            · intro d hd
              exact le_trans (hfin d hd) (le_of_lt ht)

lemma handleFrame_new_final (st : VadState) (f : VadFrame) (t0 : Nat)
    (h : VadInv st t0) :
    ∀ d ∈ (handleFrame st f).finalizes,
      d ∈ st.finalizes ∨ st.lastSpeechTime + 1000 ≤ d := by
  obtain ⟨hproc, hlp, hlf, hpend, hlast, hfin⟩ := h
  intro d hd
  unfold handleFrame at hd
  by_cases hl : st.asrLocked = true
  · rw [maybeFire_none st f.time (hlp hl),
      processFrame_blocked st f (Or.inr hl)] at hd
    exact Or.inl hd
  · have hl' : st.asrLocked = false := by simpa using hl
    cases hp : st.pending with
    | none =>
        rw [maybeFire_none st f.time hp] at hd
        by_cases hsp : f.isSpeech = true
        · rw [processFrame_speech st f hproc hl' hsp] at hd
          exact Or.inl hd
        · have hsp' : f.isSpeech = false := by simpa using hsp
          rw [processFrame_silence st f hproc hl' hsp'] at hd
          by_cases hrec : st.isRecording = true
          · rw [if_pos hrec] at hd
            by_cases hc : st.pending = none ∧ 500 ≤ f.time - st.lastSpeechTime
            · rw [if_pos hc] at hd
              exact Or.inl hd
            · rw [if_neg hc] at hd
              exact Or.inl hd
          · rw [if_neg hrec] at hd
            exact Or.inl hd
    | some d0 =>
        obtain ⟨hrec, hl2, hsep, htd⟩ := hpend d0 hp
        by_cases hfire : d0 ≤ f.time
        · rw [maybeFire_fire st d0 f.time hp hfire hrec hproc hl',
            processFrame_blocked _ f (Or.inr rfl)] at hd
          have hd2 : d ∈ st.finalizes ++ [d0] := hd
          rw [List.mem_append, List.mem_singleton] at hd2
          rcases hd2 with hd2 | hd2
          · exact Or.inl hd2
          · subst hd2
            exact Or.inr hsep
        · rw [maybeFire_skip st d0 f.time hp hfire] at hd
          by_cases hsp : f.isSpeech = true
          · rw [processFrame_speech st f hproc hl' hsp] at hd
            exact Or.inl hd
          · have hsp' : f.isSpeech = false := by simpa using hsp
            rw [processFrame_silence st f hproc hl' hsp', if_pos hrec,
              if_neg (by simp [hp])] at hd
            exact Or.inl hd

lemma handleFrame_lastSpeech_mono (st : VadState) (f : VadFrame) (t0 : Nat)
    (h : VadInv st t0) (ht : t0 < f.time) :
    st.lastSpeechTime ≤ (handleFrame st f).lastSpeechTime := by
  obtain ⟨hproc, hlp, hlf, hpend, hlast, hfin⟩ := h
  unfold handleFrame
  by_cases hl : st.asrLocked = true
  · rw [maybeFire_none st f.time (hlp hl), processFrame_blocked st f (Or.inr hl)]
  · have hl' : st.asrLocked = false := by simpa using hl
    cases hp : st.pending with
    | none =>
        rw [maybeFire_none st f.time hp]
        by_cases hsp : f.isSpeech = true
        · rw [processFrame_speech st f hproc hl' hsp]
          show st.lastSpeechTime ≤ f.time
          omega
        · have hsp' : f.isSpeech = false := by simpa using hsp
          rw [processFrame_silence st f hproc hl' hsp']
          by_cases hrec : st.isRecording = true
          · rw [if_pos hrec]
            by_cases hc : st.pending = none ∧ 500 ≤ f.time - st.lastSpeechTime
            · rw [if_pos hc]
            · rw [if_neg hc]
          · rw [if_neg hrec]
    | some d0 =>
        obtain ⟨hrec, hl2, hsep, htd⟩ := hpend d0 hp
        by_cases hfire : d0 ≤ f.time
        · rw [maybeFire_fire st d0 f.time hp hfire hrec hproc hl',
            processFrame_blocked _ f (Or.inr rfl)]
        · rw [maybeFire_skip st d0 f.time hp hfire]
          by_cases hsp : f.isSpeech = true
          · rw [processFrame_speech st f hproc hl' hsp]
            show st.lastSpeechTime ≤ f.time
            omega
          · have hsp' : f.isSpeech = false := by simpa using hsp
            rw [processFrame_silence st f hproc hl' hsp', if_pos hrec,
              if_neg (by simp [hp])]

lemma runVadHorizon_new_final (fs : List VadFrame) :
    ∀ (st : VadState) (t0 T : Nat), VadInv st t0 → framesAsc t0 fs = true →
      ∀ d ∈ (runVadHorizon st fs T).finalizes,
        d ∈ st.finalizes ∨ st.lastSpeechTime + 1000 ≤ d := by
  induction fs with
  | nil =>
      intro st t0 T h _ d hd
      obtain ⟨hproc, hlp, hlf, hpend, hlast, hfin⟩ := h
      unfold runVadHorizon runVad at hd
      rw [List.foldl_nil] at hd
      cases hp : st.pending with
      | none =>
          rw [maybeFire_none st T hp] at hd
          exact Or.inl hd
      | some d0 =>
          obtain ⟨hrec, hl', hsep, htd⟩ := hpend d0 hp
          by_cases hfire : d0 ≤ T
          · rw [maybeFire_fire st d0 T hp hfire hrec hproc hl'] at hd
            have hd2 : d ∈ st.finalizes ++ [d0] := hd
            rw [List.mem_append, List.mem_singleton] at hd2
            rcases hd2 with hd2 | hd2
            · exact Or.inl hd2
            · subst hd2
              exact Or.inr hsep
          · rw [maybeFire_skip st d0 T hp hfire] at hd
            exact Or.inl hd
  | cons f fs ih =>
      intro st t0 T h hasc d hd
      obtain ⟨ht, hasc2⟩ := framesAsc_cons t0 f fs hasc
      have hstep := vadInv_step st f t0 h ht
      have hfold : runVadHorizon st (f :: fs) T
          = runVadHorizon (handleFrame st f) fs T := by
        unfold runVadHorizon runVad
        rw [List.foldl_cons]
      rw [hfold] at hd
      rcases ih (handleFrame st f) f.time T hstep hasc2 d hd with hmem | hge
      · exact handleFrame_new_final st f t0 h d hmem
      · right
        have hmono := handleFrame_lastSpeech_mono st f t0 h ht
        omega

lemma vad_separation_aux (fs : List VadFrame) :
    ∀ (st : VadState) (t0 T : Nat), VadInv st t0 → framesAsc t0 fs = true →
      ∀ d, d ∈ (runVadHorizon st fs T).finalizes →
        ∀ f ∈ fs, f.isSpeech = true → f.time < d → f.time + 1000 ≤ d := by
  induction fs with
  | nil =>
      intro st t0 T _ _ d _ f hf
      cases hf
  | cons g gs ih =>
      intro st t0 T h hasc d hd f hf hsp hfd
      obtain ⟨ht, hasc2⟩ := framesAsc_cons t0 g gs hasc
      have hstep := vadInv_step st g t0 h ht
      obtain ⟨hproc, hlp, hlf, hpend, hlast, hfin⟩ := h
      have hfold : runVadHorizon st (g :: gs) T
          = runVadHorizon (handleFrame st g) gs T := by
        unfold runVadHorizon runVad
        rw [List.foldl_cons]
      rw [hfold] at hd
      rcases List.mem_cons.mp hf with rfl | hf2
      · by_cases hl : st.asrLocked = true
        · have hpn := hlp hl
          rw [handleFrame_locked st f hl hpn,
            runVadHorizon_locked gs st T hl hpn] at hd
          have := hfin d hd
          omega
        · have hl' : st.asrLocked = false := by simpa using hl
          cases hp : st.pending with
          | some d0 =>
              obtain ⟨hrec, hl2, hsep, htd⟩ := hpend d0 hp
              by_cases hfire : d0 ≤ f.time
              · have hm : handleFrame st f
                    = { st with
                        pending := none
                        isRecording := false
                        asrLocked := true
                        finalizes := st.finalizes ++ [d0] } := by
                  unfold handleFrame
                  rw [maybeFire_fire st d0 f.time hp hfire hrec hproc hl',
                    processFrame_blocked _ f (Or.inr rfl)]
                rw [hm, runVadHorizon_locked gs _ T rfl rfl] at hd
                have hd2 : d ∈ st.finalizes ++ [d0] := hd
                rw [hlf hl', List.nil_append, List.mem_singleton] at hd2
                subst hd2
                omega
              · have hm : handleFrame st f
                    = { st with
                        lastSpeechTime := f.time
                        pending := none
                        isRecording := true } := by
                  unfold handleFrame
                  rw [maybeFire_skip st d0 f.time hp hfire,
                    processFrame_speech st f hproc hl' hsp]
                rw [hm] at hd
                rcases runVadHorizon_new_final gs _ f.time T (hm ▸ hstep)
                    hasc2 d hd with hmem | hge
                · have hmem2 : d ∈ st.finalizes := hmem
                  rw [hlf hl'] at hmem2
                  cases hmem2
                · exact hge
          | none =>
              have hm : handleFrame st f
                  = { st with
                      lastSpeechTime := f.time
                      pending := none
                      isRecording := true } := by
                unfold handleFrame
                rw [maybeFire_none st f.time hp,
                  processFrame_speech st f hproc hl' hsp]
              rw [hm] at hd
              rcases runVadHorizon_new_final gs _ f.time T (hm ▸ hstep)
                  hasc2 d hd with hmem | hge
              · have hmem2 : d ∈ st.finalizes := hmem
                rw [hlf hl'] at hmem2
                cases hmem2
              · exact hge
      · exact ih (handleFrame st g) g.time T hstep hasc2 d hd f hf2 hsp hfd

/-- C2 amended: on an `isSpeech=false` frame while recording with no
silence-timeout pending, a 500 ms timeout (deadline `t + 500`) is started only
when at least 500 ms have already elapsed since the last speech frame —
otherwise nothing is started; a speech frame arriving before a pending
deadline cancels the timeout without finalizing; `finish_recording` fired
while `asr_locked` never finalizes; consequently, over any ascending frame
sequence from startup, every finalize at time `d` is separated from every
earlier speech frame by at least 1000 ms (500 ms elapsed-silence gate plus
the 500 ms timer); and in the concrete run speech@10 ms, silence@610 ms,
horizon 1200 ms exactly one finalize fires, at 1110 ms. -/
theorem C2_silence_debounce :
    (∀ (st : VadState) (t : Nat),
      st.isRecording = true → st.isProcessingAudio = false →
      st.asrLocked = false → st.pending = none →
      (handleFrame st ⟨t, false⟩).pending
        = (if 500 ≤ t - st.lastSpeechTime then some (t + 500) else none))
    ∧ (∀ (st : VadState) (f : VadFrame) (d : Nat),
      st.isProcessingAudio = false → st.asrLocked = false →
      st.pending = some d → f.time < d → f.isSpeech = true →
      (handleFrame st f).pending = none
      ∧ (handleFrame st f).finalizes = st.finalizes)
    ∧ (∀ (st : VadState) (d : Nat), st.asrLocked = true →
      (fireTimer st d).finalizes = st.finalizes)
    ∧ (∀ (fs : List VadFrame) (T d : Nat), framesAsc 0 fs = true →
      d ∈ (runVadHorizon initVadState fs T).finalizes →
      ∀ f ∈ fs, f.isSpeech = true → f.time < d → f.time + 1000 ≤ d)
    ∧ (runVadHorizon initVadState
        [⟨10, true⟩, ⟨610, false⟩] 1200).finalizes = [1110] := by
  refine ⟨?_, ?_, ?_, ?_, by decide⟩
  · intro st t hrec hproc hl hp
    unfold handleFrame
    rw [maybeFire_none st t hp,
      processFrame_silence st ⟨t, false⟩ hproc hl rfl, if_pos hrec]
    by_cases hdur : 500 ≤ t - st.lastSpeechTime
    · rw [if_pos ⟨hp, hdur⟩, if_pos hdur]
    · rw [if_neg (by intro hcon; exact hdur hcon.2), if_neg hdur]
      exact hp
  · intro st f d hproc hl hp hfd hsp
    unfold handleFrame
    rw [maybeFire_skip st d f.time hp (by omega),
      processFrame_speech st f hproc hl hsp]
    exact ⟨rfl, rfl⟩
  · intro st d hl
    unfold fireTimer
    rw [if_pos (Or.inr (Or.inr hl))]
  · intro fs T d hasc hd f hf hsp hfd
    exact vad_separation_aux fs initVadState 0 T vadInv_init hasc d hd f hf hsp hfd

/-- C2 witness: the amended statement at concrete inputs — after speech at
10 ms (recording, unlocked, nothing pending), a silence frame at 610 ms
(600 ms elapsed ≥ 500 ms) starts the timeout with deadline 1110 ms; a speech
frame at 800 ms cancels the pending deadline 1110 without finalizing; and in
the concrete two-frame run the finalize at 1110 ms is 1100 ms after the
speech frame at 10 ms. -/
theorem C2_witness :
    ((handleFrame initVadState ⟨10, true⟩).isRecording = true
      ∧ (handleFrame initVadState ⟨10, true⟩).asrLocked = false
      ∧ (handleFrame initVadState ⟨10, true⟩).pending = none
      ∧ (handleFrame (handleFrame initVadState ⟨10, true⟩) ⟨610, false⟩).pending
        = (if 500 ≤ 610 - (handleFrame initVadState ⟨10, true⟩).lastSpeechTime
           then some (610 + 500) else none))
    ∧ ((handleFrame (handleFrame initVadState ⟨10, true⟩) ⟨610, false⟩).pending
        = some 1110
      ∧ (handleFrame (handleFrame (handleFrame initVadState ⟨10, true⟩) ⟨610, false⟩)
          ⟨800, true⟩).pending = none
      ∧ (handleFrame (handleFrame (handleFrame initVadState ⟨10, true⟩) ⟨610, false⟩)
          ⟨800, true⟩).finalizes
        = (handleFrame (handleFrame initVadState ⟨10, true⟩) ⟨610, false⟩).finalizes)
    ∧ ((10 : Nat) + 1000 ≤ 1110) :=
  ⟨⟨by decide, by decide, by decide,
    C2_silence_debounce.1 (handleFrame initVadState ⟨10, true⟩) 610
      (by decide) (by decide) (by decide) (by decide)⟩,
   ⟨by decide,
    C2_silence_debounce.2.1
      (handleFrame (handleFrame initVadState ⟨10, true⟩) ⟨610, false⟩)
      ⟨800, true⟩ 1110 (by decide) (by decide) (by decide) (by decide) (by decide)⟩,
   C2_silence_debounce.2.2.2.1 [⟨10, true⟩, ⟨610, false⟩] 1200 1110
      (by decide) (by decide) ⟨10, true⟩ (by decide) (by decide) (by decide)⟩

end MyNeuro
